import Mathlib

/-!
# go-filterparams-util: the filter cleaner

A shallow embedding of `cleaner.go`, `datatype.go`, `rule.go` and `tag.go` of
the package `fputil`, and theorems about `CleanFilter`, the recursive `clean`,
`CleanOrders`, the data types and `GetCleanSpecs`.

Conventions of the embedding.

* A Go `interface{}` that carries a parameter value is a `Value`; a Go
  `interface{}` that carries a filter is a `Node`.
* Pointers to nodes (`*definition.And`, `*definition.Parameter`, ...) are
  modelled by the node they point to: the trees handed to the cleaner are
  the finite trees built by the external parser, with non-nil pointers.
* The Go map `map[string]CleanSpec` is a finite function
  `String → Option CleanSpec`; assignment `m[k] = v` is `GoMap.set`.
* The functions of the Go standard library that the data types call and that
  are not part of this package (`strconv.ParseFloat`, `time.Parse`,
  `Time.Format`, `fmt.Sprintf`) are the fields of `GoLib`, a parameter of
  `Parse`. `strconv.ParseInt` and `strconv.ParseUint` are modelled for base 10.
* A `reflect.Type` is the data that the schema walk reads from it: kind,
  package path, name, element type and, for the record itself, its fields.
-/

namespace Fputil

/-! ## Values -/

/-- An instant as produced by `time.Parse`: nanoseconds since the epoch and the
zone offset in seconds. -/
structure Time where
  unixNano : Int
  offset : Int
  deriving DecidableEq, Repr

/-- The dynamic values an `interface{}` parameter value can hold, by dynamic
type. The integer constructors carry the numeric value (in the range of the
Go type), the float constructors the IEEE bit pattern. `other` stands for a
value of any other dynamic type (a slice, a struct, ...), named by `repr`. -/
inductive Value where
  | nil
  | bool (b : Bool)
  | string (s : String)
  | int (v : Int)
  | int8 (v : Int)
  | int16 (v : Int)
  | int32 (v : Int)
  | int64 (v : Int)
  | uint (v : Nat)
  | uint8 (v : Nat)
  | uint16 (v : Nat)
  | uint32 (v : Nat)
  | uint64 (v : Nat)
  | float32 (bits : Nat)
  | float64 (bits : Nat)
  | time (t : Time)
  | other (repr : String)
  deriving DecidableEq, Repr

/-- The standard-library functions used by `datatype.go`. -/
structure GoLib where
  /-- `strconv.ParseFloat(s, bitSize)`: the bit pattern of the `float64`
  result, `none` on error. -/
  parseFloat : String → Int → Option Nat
  /-- The conversion `float64(v)` of a `float32`, on bit patterns. -/
  float32To64 : Nat → Nat
  /-- `time.Parse(layout, value)`, `none` on error. -/
  timeParse : String → String → Option Time
  /-- `t.Format(layout)`. -/
  timeFormat : Time → String → String
  /-- `fmt.Sprintf("%v", value)`. -/
  sprintV : Value → String

/-! ## The external `definition` package -/

/-- `definition.Filter`: a comparison operator, identified by a string. -/
structure Filter where
  Identification : String
  deriving DecidableEq, Repr

def FilterEq : Filter := ⟨"eq"⟩
def FilterGt : Filter := ⟨"gt"⟩
def FilterGte : Filter := ⟨"gte"⟩
def FilterLt : Filter := ⟨"lt"⟩
def FilterLte : Filter := ⟨"lte"⟩
def FilterLike : Filter := ⟨"like"⟩
def FilterILike : Filter := ⟨"ilike"⟩
def FilterIn : Filter := ⟨"in"⟩

/-- `definition.Parameter`: a comparison leaf. `Alias` stands for the fields
that the cleaner never reads and copies unchanged. -/
structure Parameter where
  Name : String
  Alias : String
  Filter : Filter
  Value : Value
  deriving DecidableEq, Repr

/-- `definition.Order`: an entry of the order list. -/
structure Order where
  orderBy : String
  orderDesc : Bool
  deriving DecidableEq, Repr

def Order.GetOrderBy (o : Order) : String := o.orderBy

/-- The values an `interface{}` filter can hold: the four node shapes of the
`definition` package, a boolean (the constants the cleaner produces), the nil
interface, or a value of any other dynamic type. -/
inductive Node where
  | and (Left Right : Node)
  | or (Left Right : Node)
  | negate (Negated : Node)
  | parameter (pm : Parameter)
  | bool (b : Bool)
  | nil
  | other (repr : String)
  deriving DecidableEq, Repr

/-- The Go comparison `x == b` of an interface value `x` with a boolean
constant `b`: true exactly when `x` holds that boolean. -/
def Node.eqBool : Node → Bool → Bool
  | .bool c, b => c == b
  | _, _ => false

/-! ## `strconv` on base-10 integers -/

/-- The result of `strconv.ParseUint`: a value with a nil error, the value
returned together with `ErrRange`, or any other error. -/
inductive NumResult where
  | ok (n : Nat)
  | range (n : Nat)
  | fail
  deriving DecidableEq, Repr

/-- The value of a decimal digit byte, `none` for any other character. -/
def digitVal (c : Char) : Option Nat :=
  if '0' ≤ c ∧ c ≤ '9' then some (c.toNat - '0'.toNat) else none

/-- The scanning loop of `strconv.ParseUint` for base 10: `n` is the value
read so far, `maxVal = 1<<bitSize - 1`. A character that is not a digit is a
syntax error; a value above `maxVal` returns `maxVal` with `ErrRange`. -/
def parseUintLoop (maxVal : Nat) : List Char → Nat → NumResult
  | [], n => .ok n
  | c :: cs, n =>
    match digitVal c with
    | none => .fail
    | some d =>
      if n ≥ (2 ^ 64 - 1) / 10 + 1 then .range maxVal
      else
        let n1 := n * 10 + d
        if n1 > maxVal then .range maxVal else parseUintLoop maxVal cs n1

/-- `strconv.ParseUint(s, 10, bitSize)` on a 64-bit platform. -/
def strconvParseUint (s : String) (bitSize : Int) : NumResult :=
  if s.data = [] then .fail
  else
    let bitSize := if bitSize = 0 then 64 else bitSize
    if bitSize < 0 ∨ bitSize > 64 then .fail
    else parseUintLoop (2 ^ bitSize.toNat - 1) s.data 0

/-- The range check of `strconv.ParseInt` on the unsigned value `un`, with
`cutoff = uint64(1 << uint(bitSize-1))`; `none` when the error is not nil. -/
def parseIntRange (neg : Bool) (un : Nat) (bitSize : Int) : Option Int :=
  let bitSize := if bitSize = 0 then 64 else bitSize
  let cutoff : Nat := 2 ^ (bitSize - 1).toNat
  if !neg ∧ un ≥ cutoff then none
  else if neg ∧ un > cutoff then none
  else some (if neg then - (un : Int) else (un : Int))

/-- `strconv.ParseInt(s, 10, bitSize)` on a 64-bit platform; `none` when the
error is not nil. -/
def strconvParseInt (s : String) (bitSize : Int) : Option Int :=
  match s.data with
  | [] => none
  | c :: cs =>
    let neg : Bool := c = '-'
    let rest := if c = '+' ∨ c = '-' then cs else c :: cs
    match strconvParseUint (String.mk rest) bitSize with
    | .fail => none
    | .ok un => parseIntRange neg un bitSize
    | .range un => parseIntRange neg un bitSize

/-- `strings.ToLower` as far as `boolDataType.Parse` observes it: ASCII
letters are lowered. (On other characters Go applies the Unicode mapping,
which never yields one of the letters of the six accepted words.) -/
def stringsToLower (s : String) : String := String.mk (s.data.map Char.toLower)

/-! ## `datatype.go` -/

def trueStrings : List String := ["true", "yes", "y"]

def falseStrings : List String := ["false", "no", "n"]

/-- The interface `DataType` with its implementations of `datatype.go`. The
interface is open: `custom` is an implementation supplied by a caller, given
by its two methods. -/
inductive DataType where
  | bool
  | uint (bits : Int)
  | int (bits : Int)
  | float (bits : Int)
  | string
  | time (inFormat outFormat : String)
  | nilable (dataType : DataType)
  | custom (isFilterAllowed : Filter → Bool) (parse : Value → Value × Bool)

def BoolDataType : DataType := .bool
def UintDataType (bits : Int) : DataType := .uint bits
def IntDataType (bits : Int) : DataType := .int bits
def FloatDataType (bits : Int) : DataType := .float bits
def StringDataType : DataType := .string
def TimeDataType (inFormat outFormat : String) : DataType := .time inFormat outFormat
def NilableDataType (dataType : DataType) : DataType := .nilable dataType

/-- The operator test shared by `uintDataType`, `intDataType`, `floatDataType`
and `timeDataType`. -/
def orderedIsFilterAllowed (filter : Filter) : Bool :=
  filter.Identification == FilterEq.Identification ||
    filter.Identification == FilterGt.Identification ||
    filter.Identification == FilterGte.Identification ||
    filter.Identification == FilterLt.Identification ||
    filter.Identification == FilterLte.Identification ||
    filter.Identification == FilterIn.Identification

/-- The method `IsFilterAllowed` of each implementation. -/
def DataType.IsFilterAllowed : DataType → Filter → Bool
  | .bool, filter =>
    filter.Identification == FilterEq.Identification ||
      filter.Identification == FilterIn.Identification
  | .uint _, filter => orderedIsFilterAllowed filter
  | .int _, filter => orderedIsFilterAllowed filter
  | .float _, filter => orderedIsFilterAllowed filter
  | .string, filter =>
    filter.Identification == FilterEq.Identification ||
      filter.Identification == FilterLike.Identification ||
      filter.Identification == FilterILike.Identification ||
      filter.Identification == FilterIn.Identification
  | .time _ _, filter => orderedIsFilterAllowed filter
  | .nilable dataType, filter => dataType.IsFilterAllowed filter
  | .custom isFilterAllowed _, filter => isFilterAllowed filter

def boolParse : Value → Value × Bool
  | .string v =>
    let v := stringsToLower v
    if trueStrings.contains v then (.bool true, true)
    else if falseStrings.contains v then (.bool false, true)
    else (.nil, false)
  | .bool v => (.bool v, true)
  | _ => (.nil, false)

def uintParse (bits : Int) : Value → Value × Bool
  | .string v =>
    match strconvParseUint v bits with
    | .ok n => (.uint64 n, true)
    | _ => (.nil, false)
  | .uint64 v => (.uint64 v, true)
  | .uint v => (.uint64 v, true)
  | .uint8 v => (.uint64 v, true)
  | .uint16 v => (.uint64 v, true)
  | .uint32 v => (.uint64 v, true)
  | _ => (.nil, false)

def intParse (bits : Int) : Value → Value × Bool
  | .string v =>
    match strconvParseInt v bits with
    | some n => (.int64 n, true)
    | none => (.nil, false)
  | .int64 v => (.int64 v, true)
  | .int v => (.int64 v, true)
  | .int8 v => (.int64 v, true)
  | .int16 v => (.int64 v, true)
  | .int32 v => (.int64 v, true)
  | _ => (.nil, false)

def floatParse (lib : GoLib) (bits : Int) : Value → Value × Bool
  | .string v =>
    match lib.parseFloat v bits with
    | some n => (.float64 n, true)
    | none => (.nil, false)
  | .float32 v => (.float64 (lib.float32To64 v), true)
  | .float64 v => (.float64 v, true)
  | _ => (.nil, false)

def stringParse (lib : GoLib) : Value → Value × Bool
  | .string v => (.string v, true)
  | value => (.string (lib.sprintV value), false)

def timeParse (lib : GoLib) (inFormat outFormat : String) : Value → Value × Bool
  | .string v =>
    match lib.timeParse inFormat v with
    | some t =>
      if outFormat ≠ "" then (.string (lib.timeFormat t outFormat), true)
      else (.time t, true)
    | none => (.nil, false)
  | _ => (.nil, false)

/-- The method `Parse` of each implementation; for `nilableDataType` the
`switch value { case "nil", nil: ... }` comes first. -/
def DataType.Parse (lib : GoLib) : DataType → Value → Value × Bool
  | .bool, value => boolParse value
  | .uint bits, value => uintParse bits value
  | .int bits, value => intParse bits value
  | .float bits, value => floatParse lib bits value
  | .string, value => stringParse lib value
  | .time inFormat outFormat, value => timeParse lib inFormat outFormat value
  | .nilable dataType, value =>
    if value = .string "nil" ∨ value = .nil then (.nil, true)
    else dataType.Parse lib value
  | .custom _ parse, value => parse value

/-! ## `rule.go` -/

/-- The interface `Rule`, given by its method `Validate` (`RuleFunc`). -/
structure Rule where
  Validate : Value → Bool

/-! ## `cleaner.go` -/

structure CleanSpec where
  Name : String
  DataType : DataType
  Rules : List Rule

/-- A Go map with string keys. -/
abbrev GoMap (α : Type) := String → Option α

def GoMap.empty {α : Type} : GoMap α := fun _ => none

/-- The assignment `m[k] = v`. -/
def GoMap.set {α : Type} (m : GoMap α) (k : String) (v : α) : GoMap α :=
  fun k' => if k' = k then some v else m k'

/-- The loop `for _, spec := range specs { mSpecs[spec.Name] = spec }` of
`CleanFilter`. -/
def buildSpecs (specs : List CleanSpec) : GoMap CleanSpec :=
  specs.foldl (fun m spec => m.set spec.Name spec) GoMap.empty

/-- The loop over `spec.Rules` of `cleanParameter`: `false` at the first rule
that rejects the value. -/
def validateRules : List Rule → Value → Bool
  | [], _ => true
  | rule :: rules, v => if !rule.Validate v then false else validateRules rules v

def cleanParameter (lib : GoLib) (mSpecs : GoMap CleanSpec) (pm : Parameter) : Node :=
  match mSpecs pm.Name with
  | none => .bool false
  | some spec =>
    if !spec.DataType.IsFilterAllowed pm.Filter then .bool false
    else
      let (newValue, ok) := spec.DataType.Parse lib pm.Value
      if !ok then .bool false
      else if !validateRules spec.Rules newValue then .bool false
      else .parameter { pm with Value := newValue }

/-- The body of `cleanAnd` after its two calls of `c.clean`: `left` and
`right` are `c.clean(a.Left)` and `c.clean(a.Right)`. (`clean` has no effect,
so calling it on the right child before the test of `left` changes nothing.) -/
def cleanAnd (left right : Node) : Node :=
  if left.eqBool false then .bool false
  else if right.eqBool false then .bool false
  else if left.eqBool true then right
  else if right.eqBool true then left
  else .and left right

/-- The body of `cleanOr` after its two calls of `c.clean`. -/
def cleanOr (left right : Node) : Node :=
  if left.eqBool true then .bool true
  else if right.eqBool true then .bool true
  else if left.eqBool false then right
  else if right.eqBool false then left
  else .or left right

/-- The body of `cleanNegate` after its call of `c.clean`. -/
def cleanNegate (negated : Node) : Node :=
  if negated.eqBool false then .bool true
  else if negated.eqBool true then .bool false
  else .negate negated

/-- The method `filterCleaning.clean`: the type switch on the filter, with
`false` for every value that is not one of the four node shapes. -/
def clean (lib : GoLib) (mSpecs : GoMap CleanSpec) : Node → Node
  | .and Left Right => cleanAnd (clean lib mSpecs Left) (clean lib mSpecs Right)
  | .or Left Right => cleanOr (clean lib mSpecs Left) (clean lib mSpecs Right)
  | .negate Negated => cleanNegate (clean lib mSpecs Negated)
  | .parameter pm => cleanParameter lib mSpecs pm
  | _ => .bool false

def CleanFilter (lib : GoLib) (filter : Node) (specs : List CleanSpec) : Node :=
  let mSpecs := buildSpecs specs
  let newFilter := clean lib mSpecs filter
  if newFilter.eqBool true then .nil else newFilter

/-- The loop `for _, spec := range specs { mNames[spec.Name] = true }` of
`CleanOrders`. -/
def buildNames (specs : List CleanSpec) : GoMap Bool :=
  specs.foldl (fun m spec => m.set spec.Name true) GoMap.empty

/-- The read `m[k]` of a `map[string]bool`: `false` for an absent key. -/
def GoMap.getBool (m : GoMap Bool) (k : String) : Bool :=
  match m k with
  | some b => b
  | none => false

def CleanOrders (orders : List Order) (specs : List CleanSpec) : List Order :=
  let mNames := buildNames specs
  orders.foldl
    (fun newOrders order =>
      if mNames.getBool order.GetOrderBy then newOrders ++ [order] else newOrders)
    []

/-! ## Vocabulary of the specification -/

/-- The field names of a whitelist. -/
def whitelistNames (specs : List CleanSpec) : List String :=
  specs.map (fun spec => spec.Name)

/-- The whitelist entry of a field name: the last spec of the list with that
name ("later duplicate names overwrite earlier ones"). -/
def lookupSpec (specs : List CleanSpec) (name : String) : Option CleanSpec :=
  (specs.filter (fun spec => decide (spec.Name = name))).getLast?

/-- The Comparison nodes that occur anywhere in a filter value. -/
def Node.parameters : Node → List Parameter
  | .and Left Right => Left.parameters ++ Right.parameters
  | .or Left Right => Left.parameters ++ Right.parameters
  | .negate Negated => Negated.parameters
  | .parameter pm => [pm]
  | _ => []

/-- A tree built only from And, Or, Not and Comparison nodes. -/
def Node.isTree : Node → Bool
  | .and Left Right => Left.isTree && Right.isTree
  | .or Left Right => Left.isTree && Right.isTree
  | .negate Negated => Negated.isTree
  | .parameter _ => true
  | _ => false

/-- Removal of a pair of directly nested Not nodes at the root. -/
def stripDoubleNegate : Node → Node
  | .negate (.negate t) => t
  | n => n

/-- A data type re-parses each of its own successful results to itself. -/
def DataType.ParseStable (lib : GoLib) (dt : DataType) : Prop :=
  ∀ v v', dt.Parse lib v = (v', true) → dt.Parse lib v' = (v', true)

/-- The leaf rule of the specification: the whitelist entry, the operator
test, the parse and the rules, in this order. -/
def cleanLeafSpec (lib : GoLib) (specs : List CleanSpec) (pm : Parameter) : Node :=
  match lookupSpec specs pm.Name with
  | none => .bool false
  | some spec =>
    if spec.DataType.IsFilterAllowed pm.Filter = true ∧
        (spec.DataType.Parse lib pm.Value).2 = true ∧
        (∀ rule ∈ spec.Rules, rule.Validate (spec.DataType.Parse lib pm.Value).1 = true) then
      .parameter ⟨pm.Name, pm.Alias, pm.Filter, (spec.DataType.Parse lib pm.Value).1⟩
    else .bool false

/-- A leaf that the cleaner rejects: its cleaning is the constant false. -/
def rejected (lib : GoLib) (mSpecs : GoMap CleanSpec) (pm : Parameter) : Bool :=
  (cleanParameter lib mSpecs pm).eqBool false

/-- A tree of And, Or, Not and Comparison nodes none of whose leaves is
rejected. -/
def allAccepted (lib : GoLib) (mSpecs : GoMap CleanSpec) : Node → Bool
  | .and Left Right => allAccepted lib mSpecs Left && allAccepted lib mSpecs Right
  | .or Left Right => allAccepted lib mSpecs Left && allAccepted lib mSpecs Right
  | .negate Negated => allAccepted lib mSpecs Negated
  | .parameter pm => !rejected lib mSpecs pm
  | _ => false

/-- No rejected leaf, and no value other than the four node shapes, lies
below a Not node. -/
def noRejectedUnderNegate (lib : GoLib) (mSpecs : GoMap CleanSpec) : Node → Bool
  | .and Left Right =>
    noRejectedUnderNegate lib mSpecs Left && noRejectedUnderNegate lib mSpecs Right
  | .or Left Right =>
    noRejectedUnderNegate lib mSpecs Left && noRejectedUnderNegate lib mSpecs Right
  | .negate Negated => allAccepted lib mSpecs Negated
  | _ => true

/-- A data type built from the implementations of `datatype.go` other than
`timeDataType`. -/
def DataType.timeFree : DataType → Bool
  | .bool => true
  | .uint _ => true
  | .int _ => true
  | .float _ => true
  | .string => true
  | .time _ _ => false
  | .nilable dataType => dataType.timeFree
  | .custom _ _ => false

/-- A value of one of the four node shapes that the type switch of `clean`
recognizes. -/
def Node.isNode : Node → Bool
  | .and _ _ => true
  | .or _ _ => true
  | .negate _ => true
  | .parameter _ => true
  | _ => false

/-- The truth value of a cleaned filter under an assignment `ρ` of truth
values to Comparison nodes; the constants stand for themselves. -/
def evalCleaned (ρ : Parameter → Bool) : Node → Bool
  | .and Left Right => evalCleaned ρ Left && evalCleaned ρ Right
  | .or Left Right => evalCleaned ρ Left || evalCleaned ρ Right
  | .negate Negated => !evalCleaned ρ Negated
  | .parameter pm => ρ pm
  | .bool b => b
  | _ => false

/-- The truth value of an input filter: a rejected leaf (and a value that is no
node) reads as false, an accepted leaf as the truth value of its cleaned
node. -/
def evalInput (lib : GoLib) (mSpecs : GoMap CleanSpec) (ρ : Parameter → Bool) : Node → Bool
  | .and Left Right => evalInput lib mSpecs ρ Left && evalInput lib mSpecs ρ Right
  | .or Left Right => evalInput lib mSpecs ρ Left || evalInput lib mSpecs ρ Right
  | .negate Negated => !evalInput lib mSpecs ρ Negated
  | .parameter pm =>
    match cleanParameter lib mSpecs pm with
    | .parameter pm' => ρ pm'
    | _ => false
  | _ => false

/-- The Comparison node `pm'` is the cleaning of a leaf of the filter `X`:
its operator is allowed by the data type of the whitelist entry of its name,
its value is the successful parse of the raw value of a leaf of `X` with the
same name and operator, and every rule of the entry accepts that value. -/
def CleanedFrom (lib : GoLib) (specs : List CleanSpec) (X : Node) (pm' : Parameter) : Prop :=
  ∃ spec, lookupSpec specs pm'.Name = some spec ∧
    spec.DataType.IsFilterAllowed pm'.Filter = true ∧
    (∃ pm ∈ X.parameters, pm.Name = pm'.Name ∧ pm.Filter = pm'.Filter ∧
      spec.DataType.Parse lib pm.Value = (pm'.Value, true)) ∧
    ∀ rule ∈ spec.Rules, rule.Validate pm'.Value = true

/-- The layout `time.RFC3339`. -/
def RFC3339 : String := "2006-01-02T15:04:05Z07:00"

/-- A library instance for evaluating the definitions on concrete inputs that
involve no float: of the timestamps it parses only `1970-01-01T00:00:00Z` (the
epoch, in UTC) under `RFC3339`. The theorems below hold for every library;
this instance only serves to run the cleaner on examples. -/
def sampleLib : GoLib where
  parseFloat := fun _ _ => none
  float32To64 := fun bits => bits
  timeParse := fun layout value =>
    if layout = RFC3339 ∧ value = "1970-01-01T00:00:00Z" then some ⟨0, 0⟩ else none
  timeFormat := fun _ layout => layout
  sprintV := fun _ => ""

/-! ## `tag.go` and the schema walk of `cleaner.go` -/

/-- `reflect.Kind`. -/
inductive Kind where
  | Invalid | Bool
  | Int | Int8 | Int16 | Int32 | Int64
  | Uint | Uint8 | Uint16 | Uint32 | Uint64 | Uintptr
  | Float32 | Float64 | Complex64 | Complex128
  | Array | Chan | Func | Interface | Map | Ptr | Slice | String | Struct | UnsafePointer
  deriving DecidableEq, Repr

/-- `Type.Bits()` of a type of the given kind, on a 64-bit platform (`0` for
the kinds without a size in bits, for which the package never asks). -/
def Kind.Bits : Kind → ℤ
  | .Int => 64 | .Int8 => 8 | .Int16 => 16 | .Int32 => 32 | .Int64 => 64
  | .Uint => 64 | .Uint8 => 8 | .Uint16 => 16 | .Uint32 => 32 | .Uint64 => 64
  | .Uintptr => 64
  | .Float32 => 32 | .Float64 => 64 | .Complex64 => 64 | .Complex128 => 128
  | _ => 0

/-- The `reflect.Type` of a struct field, as far as `getDataType` reads it: a
pointer type with its element type, or a type that is no pointer, with its
kind, package path and name. -/
inductive RType where
  | named (kind : Kind) (pkgPath name : String)
  | ptr (elem : RType)
  deriving DecidableEq, Repr

def RType.Kind : RType → Kind
  | .named kind _ _ => kind
  | .ptr _ => .Ptr

/-- `Type.Elem()`; the package calls it on pointer types only. -/
def RType.Elem : RType → RType
  | .ptr elem => elem
  | t => t

def RType.Bits (t : RType) : Int := t.Kind.Bits

def RType.PkgPath : RType → String
  | .named _ pkgPath _ => pkgPath
  | .ptr _ => ""

def RType.Name : RType → String
  | .named _ _ name => name
  | .ptr _ => ""

/-- `reflect.StructTag`, given by its method `Get`. -/
structure StructTag where
  Get : String → String

/-- `reflect.StructField`; `Typ` is its field `Type`. -/
structure StructField where
  Name : String
  Tag : StructTag
  Typ : RType

/-- The `reflect.Type` of the value handed to `GetCleanSpecs`: a struct with
its fields, a pointer, or anything else (the nil type of a nil interface
included). -/
inductive ValueType where
  | struct (fields : List StructField)
  | ptr (elem : ValueType)
  | other

def getFieldTagValue (field : StructField) : String :=
  field.Tag.Get "filterparams"

def getName (field : StructField) : String :=
  let tag := getFieldTagValue field
  if tag = "-" then ""
  else
    let name := tag
    if name = "" then field.Name else name

/-- The function `getDataType`; `none` is the nil `DataType`. -/
def getDataType (field : StructField) : Option DataType :=
  let nilable : Bool := field.Typ.Kind = Kind.Ptr
  let ft := if field.Typ.Kind = Kind.Ptr then field.Typ.Elem else field.Typ
  let dataType : Option DataType :=
    match ft.Kind with
    | .Bool => some BoolDataType
    | .Int | .Int8 | .Int16 | .Int32 | .Int64 => some (IntDataType ft.Bits)
    | .Uint | .Uint8 | .Uint16 | .Uint32 | .Uint64 => some (UintDataType ft.Bits)
    | .Float32 | .Float64 => some (FloatDataType ft.Bits)
    | .String => some StringDataType
    | .Struct =>
      if ft.PkgPath ≠ "time" ∨ ft.Name ≠ "Time" then none
      else some (TimeDataType RFC3339 "")
    | _ => none
  match dataType with
  | none => none
  | some dataType => some (if nilable then NilableDataType dataType else dataType)

/-- The body of the loop of `GetCleanSpecs` for one field. -/
def appendCleanSpec (specs : List CleanSpec) (field : StructField) : List CleanSpec :=
  let name := getName field
  if name = "" then specs
  else
    match getDataType field with
    | none => specs
    | some dataType => specs ++ [⟨name, dataType, []⟩]

/-- The function `GetCleanSpecs` on the type of its argument; `none` is a
panic ("not a struct", or `Kind()` of the nil type). -/
def GetCleanSpecs (v : ValueType) : Option (List CleanSpec) :=
  let rt := match v with
    | .ptr elem => elem
    | t => t
  match rt with
  | .struct fields => some (fields.foldl appendCleanSpec [])
  | _ => none

/-! ## Vocabulary of the specification: the schema -/

/-- The recognized kinds: boolean, a signed or unsigned integer of any width,
a float of any width, string, and the struct `time.Time`. -/
def recognizedKind (t : RType) : Bool :=
  t.Kind ∈ [Kind.Bool, Kind.Int, Kind.Int8, Kind.Int16, Kind.Int32, Kind.Int64,
    Kind.Uint, Kind.Uint8, Kind.Uint16, Kind.Uint32, Kind.Uint64,
    Kind.Float32, Kind.Float64, Kind.String] ∨
  (t.Kind = Kind.Struct ∧ t.PkgPath = "time" ∧ t.Name = "Time")

/-- Removal of at most one pointer level. -/
def stripPointer : RType → RType
  | .ptr elem => elem
  | t => t

/-- A field that is not excluded by the tag "-" and whose kind, after the
removal of at most one pointer level, is recognized. -/
def eligible (field : StructField) : Bool :=
  field.Tag.Get "filterparams" ≠ "-" ∧ recognizedKind (stripPointer field.Typ)

/-- The effective name of a field: the tag when it is not empty, the
identifier of the field otherwise. -/
def effectiveName (field : StructField) : String :=
  if field.Tag.Get "filterparams" ≠ "" then field.Tag.Get "filterparams" else field.Name

/-- A data type that is no optional wrapper: one of Bool, Uint, Int, Float,
String and Timestamp. -/
def DataType.isBase : DataType → Bool
  | .bool => true
  | .uint _ => true
  | .int _ => true
  | .float _ => true
  | .string => true
  | .time _ _ => true
  | .nilable _ => false
  | .custom _ _ => false

/-- The struct tag `filterparams:"value"` (the empty tag for `value = ""`). -/
def filterparamsTag (value : String) : StructTag :=
  ⟨fun key => if key = "filterparams" then value else ""⟩

/-- The fields of a sample record
`{ID int64 "id"; Name string; Secret string "-"; Tags []string; Created *time.Time "created";
Link **int "link"}`. -/
def sampleFields : List StructField :=
  [⟨"ID", filterparamsTag "id", .named .Int64 "" "int64"⟩,
    ⟨"Name", filterparamsTag "", .named .String "" "string"⟩,
    ⟨"Secret", filterparamsTag "-", .named .String "" "string"⟩,
    ⟨"Tags", filterparamsTag "", .named .Slice "" ""⟩,
    ⟨"Created", filterparamsTag "created", .ptr (.named .Struct "time" "Time")⟩,
    ⟨"Link", filterparamsTag "link", .ptr (.ptr (.named .Int "" "int"))⟩]

/-! ## Vocabulary of the specification: integer literals -/

/-- One or more decimal digits. -/
def isDecimal (cs : List Char) : Bool :=
  !cs.isEmpty && cs.all Char.isDigit

/-- The number that a string of decimal digits denotes. -/
def decimalValue (cs : List Char) : Nat :=
  cs.foldl (fun n c => 10 * n + (c.toNat - '0'.toNat)) 0

/-- The value of a base-10 integer literal, an optional sign followed by one
or more decimal digits; `none` for any other text. -/
def intLiteral (s : String) : Option Int :=
  match s.data with
  | [] => none
  | c :: cs =>
    if c = '+' then (if isDecimal cs then some (decimalValue cs : Int) else none)
    else if c = '-' then (if isDecimal cs then some (-(decimalValue cs : Int)) else none)
    else if isDecimal (c :: cs) then some (decimalValue (c :: cs) : Int)
    else none

/-- The result that the specification gives for `Int(w).Parse` of a string:
the value of the literal when it lies in `[-2^(w-1), 2^(w-1)-1]`, failure
otherwise. -/
def intParseSpec (w : Nat) (s : String) : Value × Bool :=
  match intLiteral s with
  | some n =>
    if -(2 : Int) ^ (w - 1) ≤ n ∧ n ≤ (2 : Int) ^ (w - 1) - 1 then (.int64 n, true)
    else (.nil, false)
  | none => (.nil, false)

/-! ## Lemmas on the maps -/

theorem foldl_set_apply {α : Type} (f : CleanSpec → α) (specs : List CleanSpec)
    (m : GoMap α) (k : String) :
    (specs.foldl (fun m spec => m.set spec.Name (f spec)) m) k =
      match lookupSpec specs k with
      | some spec => some (f spec)
      | none => m k := by
  induction specs using List.reverseRecOn with
  | nil => simp [lookupSpec]
  | append_singleton l a ih =>
    simp only [List.foldl_append, List.foldl_cons, List.foldl_nil, GoMap.set]
    by_cases h : k = a.Name
    · subst h
      simp [lookupSpec, List.filter_append]
    · have h' : ¬ a.Name = k := fun e => h e.symm
      simp only [if_neg h, ih]
      simp [lookupSpec, List.filter_append, h']

theorem buildSpecs_apply (specs : List CleanSpec) (name : String) :
    buildSpecs specs name = lookupSpec specs name := by
  unfold buildSpecs
  have h := foldl_set_apply (fun s => s) specs GoMap.empty name
  rw [h]
  cases lookupSpec specs name <;> simp [GoMap.empty]

theorem lookupSpec_some {specs : List CleanSpec} {name : String} {spec : CleanSpec}
    (h : lookupSpec specs name = some spec) : spec ∈ specs ∧ spec.Name = name := by
  unfold lookupSpec at h
  have hm := List.mem_of_getLast?_eq_some h
  simpa using hm

theorem lookupSpec_eq_none {specs : List CleanSpec} {name : String} :
    lookupSpec specs name = none ↔ name ∉ whitelistNames specs := by
  unfold lookupSpec whitelistNames
  rw [List.getLast?_eq_none_iff]
  simp [List.filter_eq_nil_iff]

theorem buildNames_getBool (specs : List CleanSpec) (name : String) :
    (buildNames specs).getBool name = decide (name ∈ whitelistNames specs) := by
  unfold buildNames GoMap.getBool
  have h := foldl_set_apply (fun _ => true) specs GoMap.empty name
  rw [h]
  cases hl : lookupSpec specs name with
  | none =>
    have := lookupSpec_eq_none.mp hl
    simp [GoMap.empty, this]
  | some spec =>
    have hs := lookupSpec_some hl
    have : name ∈ whitelistNames specs := by
      unfold whitelistNames
      exact List.mem_map.mpr ⟨spec, hs.1, hs.2⟩
    simp [this]

/-! ## Lemmas on the connectives -/

theorem eqBool_iff (n : Node) (b : Bool) : n.eqBool b = true ↔ n = .bool b := by
  cases n <;> simp [Node.eqBool]

theorem eqBool_eq_decide (n : Node) (b : Bool) : n.eqBool b = decide (n = .bool b) := by
  rw [Bool.eq_iff_iff, eqBool_iff, decide_eq_true_iff]

theorem cleanAnd_eq (left right : Node) :
    cleanAnd left right =
      if left = .bool false ∨ right = .bool false then .bool false
      else if left = .bool true then right
      else if right = .bool true then left
      else .and left right := by
  simp only [cleanAnd, eqBool_eq_decide, decide_eq_true_eq]
  split_ifs <;> simp_all

theorem cleanOr_eq (left right : Node) :
    cleanOr left right =
      if left = .bool true ∨ right = .bool true then .bool true
      else if left = .bool false then right
      else if right = .bool false then left
      else .or left right := by
  simp only [cleanOr, eqBool_eq_decide, decide_eq_true_eq]
  split_ifs <;> simp_all

theorem cleanNegate_eq (negated : Node) :
    cleanNegate negated =
      if negated = .bool false then .bool true
      else if negated = .bool true then .bool false
      else .negate negated := by
  simp only [cleanNegate, eqBool_eq_decide, decide_eq_true_eq]

theorem cleanParameter_of_not_mem (lib : GoLib) (specs : List CleanSpec) (pm : Parameter)
    (h : pm.Name ∉ whitelistNames specs) :
    cleanParameter lib (buildSpecs specs) pm = .bool false := by
  unfold cleanParameter
  rw [buildSpecs_apply, lookupSpec_eq_none.mpr h]

/-! ## The shape of a cleaned filter -/

theorem isTree_ne_bool {n : Node} (h : n.isTree = true) (b : Bool) : n ≠ .bool b := by
  intro e
  subst e
  simp [Node.isTree] at h

theorem isTree_ne_nil {n : Node} (h : n.isTree = true) : n ≠ .nil := by
  intro e
  subst e
  simp [Node.isTree] at h

theorem cleanParameter_bool_or_tree (lib : GoLib) (m : GoMap CleanSpec) (pm : Parameter) :
    cleanParameter lib m pm = .bool false ∨
      ∃ v, cleanParameter lib m pm = .parameter ⟨pm.Name, pm.Alias, pm.Filter, v⟩ := by
  unfold cleanParameter
  split
  · exact Or.inl rfl
  · split_ifs
    · exact Or.inl rfl
    · split
      split_ifs
      · exact Or.inl rfl
      · exact Or.inl rfl
      · exact Or.inr ⟨_, rfl⟩

theorem clean_bool_or_tree (lib : GoLib) (m : GoMap CleanSpec) (X : Node) :
    (∃ b, clean lib m X = .bool b) ∨ (clean lib m X).isTree = true := by
  induction X with
  | and L R ihL ihR =>
    simp only [clean, cleanAnd_eq]
    split_ifs with h1 h2 h3
    · exact Or.inl ⟨false, rfl⟩
    · exact ihR
    · exact ihL
    · right
      rcases ihL with ⟨b, hb⟩ | hL
      · cases b <;> simp_all
      rcases ihR with ⟨b, hb⟩ | hR
      · cases b <;> simp_all
      simp [Node.isTree, hL, hR]
  | or L R ihL ihR =>
    simp only [clean, cleanOr_eq]
    split_ifs with h1 h2 h3
    · exact Or.inl ⟨true, rfl⟩
    · exact ihR
    · exact ihL
    · right
      rcases ihL with ⟨b, hb⟩ | hL
      · cases b <;> simp_all
      rcases ihR with ⟨b, hb⟩ | hR
      · cases b <;> simp_all
      simp [Node.isTree, hL, hR]
  | negate N ih =>
    simp only [clean, cleanNegate_eq]
    split_ifs with h1 h2
    · exact Or.inl ⟨true, rfl⟩
    · exact Or.inl ⟨false, rfl⟩
    · right
      rcases ih with ⟨b, hb⟩ | hN
      · cases b <;> simp_all
      simp [Node.isTree, hN]
  | parameter pm =>
    simp only [clean]
    rcases cleanParameter_bool_or_tree lib m pm with h | ⟨v, h⟩
    · exact Or.inl ⟨false, h⟩
    · right
      rw [h]
      rfl
  | bool b => exact Or.inl ⟨false, rfl⟩
  | nil => exact Or.inl ⟨false, rfl⟩
  | other r => exact Or.inl ⟨false, rfl⟩

theorem clean_ne_nil (lib : GoLib) (m : GoMap CleanSpec) (X : Node) :
    clean lib m X ≠ .nil := by
  rcases clean_bool_or_tree lib m X with ⟨b, hb⟩ | h
  · rw [hb]
    simp
  · exact isTree_ne_nil h

theorem CleanFilter_eq (lib : GoLib) (filter : Node) (specs : List CleanSpec) :
    CleanFilter lib filter specs =
      if clean lib (buildSpecs specs) filter = .bool true then .nil
      else clean lib (buildSpecs specs) filter := by
  simp only [CleanFilter, eqBool_eq_decide, decide_eq_true_eq]

/-! ## The top-level result (C5) -/

/-- C5: `CleanFilter` returns nil exactly when the recursive cleaning gives the
constant true; when the cleaning gives the constant false it returns the
boolean false, which is not nil; in every case other than true it returns the
result of the cleaning unchanged. -/
theorem cleanFilter_nil_iff_true (lib : GoLib) (filter : Node) (specs : List CleanSpec) :
    (CleanFilter lib filter specs = .nil ↔ clean lib (buildSpecs specs) filter = .bool true) ∧
    (clean lib (buildSpecs specs) filter = .bool false →
      CleanFilter lib filter specs = .bool false ∧ CleanFilter lib filter specs ≠ .nil) ∧
    (clean lib (buildSpecs specs) filter ≠ .bool true →
      CleanFilter lib filter specs = clean lib (buildSpecs specs) filter) := by
  rw [CleanFilter_eq]
  refine ⟨?_, ?_, ?_⟩
  · constructor
    · intro h
      by_contra hne
      rw [if_neg hne] at h
      exact clean_ne_nil _ _ _ h
    · intro h
      rw [if_pos h]
  · intro h
    simp [h]
  · intro h
    rw [if_neg h]

theorem cleanFilter_nil_iff_true_witness :
    (CleanFilter sampleLib (.parameter ⟨"unknown", "", FilterEq, .string "1"⟩) [] = .bool false ∧
      CleanFilter sampleLib (.parameter ⟨"unknown", "", FilterEq, .string "1"⟩) [] ≠ .nil) ∧
    CleanFilter sampleLib (.parameter ⟨"a", "", FilterEq, .string "1"⟩)
        [⟨"a", IntDataType 32, []⟩] =
      .parameter ⟨"a", "", FilterEq, .int64 1⟩ :=
  ⟨(cleanFilter_nil_iff_true sampleLib (.parameter ⟨"unknown", "", FilterEq, .string "1"⟩) []).2.1
      (by decide),
    ((cleanFilter_nil_iff_true sampleLib (.parameter ⟨"a", "", FilterEq, .string "1"⟩)
      [⟨"a", IntDataType 32, []⟩]).2.2 (by decide)).trans (by decide)⟩

/-! ## The connectives (C6, C7, C8, C9) -/

/-- C6: cleaning `And(L, R)` gives false if `L` or `R` cleans to false;
otherwise the cleaned `R` if `L` cleans to true; otherwise the cleaned `L` if
`R` cleans to true; otherwise a new And node of the two cleaned children. In
particular an And whose right child is a comparison on a field that is not in
the whitelist, such as `And(Comparison("a",eq,"1"), Comparison("unknown",eq,"1"))`,
cleans to false. -/
theorem clean_and_cases (lib : GoLib) (specs : List CleanSpec) (L R : Node) :
    clean lib (buildSpecs specs) (.and L R) =
      (if clean lib (buildSpecs specs) L = .bool false ∨
          clean lib (buildSpecs specs) R = .bool false then .bool false
        else if clean lib (buildSpecs specs) L = .bool true then
          clean lib (buildSpecs specs) R
        else if clean lib (buildSpecs specs) R = .bool true then
          clean lib (buildSpecs specs) L
        else .and (clean lib (buildSpecs specs) L) (clean lib (buildSpecs specs) R)) ∧
    ("unknown" ∉ whitelistNames specs →
      ∀ alias1 alias2 : String,
        clean lib (buildSpecs specs)
          (.and (.parameter ⟨"a", alias1, FilterEq, .string "1"⟩)
            (.parameter ⟨"unknown", alias2, FilterEq, .string "1"⟩)) = .bool false) := by
  refine ⟨?_, ?_⟩
  · simp only [clean, cleanAnd_eq]
  · intro h alias1 alias2
    have hu : cleanParameter lib (buildSpecs specs) ⟨"unknown", alias2, FilterEq, .string "1"⟩ =
        .bool false := cleanParameter_of_not_mem lib specs _ h
    simp only [clean, cleanAnd_eq, hu, or_true, if_true]

theorem clean_and_cases_witness :
    clean sampleLib (buildSpecs [⟨"a", IntDataType 32, []⟩])
        (.parameter ⟨"a", "", FilterEq, .string "1"⟩) =
      .parameter ⟨"a", "", FilterEq, .int64 1⟩ ∧
    clean sampleLib (buildSpecs [⟨"a", IntDataType 32, []⟩])
        (.and (.parameter ⟨"a", "", FilterEq, .string "1"⟩)
          (.parameter ⟨"unknown", "", FilterEq, .string "1"⟩)) = .bool false :=
  ⟨by decide,
    (clean_and_cases sampleLib [⟨"a", IntDataType 32, []⟩] .nil .nil).2 (by decide) "" ""⟩

/-- C7: cleaning `Or(L, R)` gives true if `L` or `R` cleans to true; otherwise
the cleaned `R` if `L` cleans to false; otherwise the cleaned `L` if `R` cleans
to false; otherwise a new Or node of the two cleaned children. In particular,
when "unknown" is not in the whitelist,
`Or(Comparison("unknown",eq,"1"), Comparison("a",eq,"1"))` cleans to the cleaned
single comparison on "a". -/
theorem clean_or_cases (lib : GoLib) (specs : List CleanSpec) (L R : Node) :
    clean lib (buildSpecs specs) (.or L R) =
      (if clean lib (buildSpecs specs) L = .bool true ∨
          clean lib (buildSpecs specs) R = .bool true then .bool true
        else if clean lib (buildSpecs specs) L = .bool false then
          clean lib (buildSpecs specs) R
        else if clean lib (buildSpecs specs) R = .bool false then
          clean lib (buildSpecs specs) L
        else .or (clean lib (buildSpecs specs) L) (clean lib (buildSpecs specs) R)) ∧
    ("unknown" ∉ whitelistNames specs →
      ∀ alias1 alias2 : String,
        clean lib (buildSpecs specs)
          (.or (.parameter ⟨"unknown", alias1, FilterEq, .string "1"⟩)
            (.parameter ⟨"a", alias2, FilterEq, .string "1"⟩)) =
        clean lib (buildSpecs specs) (.parameter ⟨"a", alias2, FilterEq, .string "1"⟩)) := by
  refine ⟨?_, ?_⟩
  · simp only [clean, cleanOr_eq]
  · intro h alias1 alias2
    have hu : cleanParameter lib (buildSpecs specs) ⟨"unknown", alias1, FilterEq, .string "1"⟩ =
        .bool false := cleanParameter_of_not_mem lib specs _ h
    simp only [clean, cleanOr_eq, hu]
    rcases cleanParameter_bool_or_tree lib (buildSpecs specs)
      ⟨"a", alias2, FilterEq, .string "1"⟩ with h2 | ⟨v, h2⟩
    · simp [h2]
    · simp [h2]

theorem clean_or_cases_witness :
    clean sampleLib (buildSpecs [⟨"a", IntDataType 32, []⟩])
        (.or (.parameter ⟨"unknown", "", FilterEq, .string "1"⟩)
          (.parameter ⟨"a", "", FilterEq, .string "1"⟩)) =
      .parameter ⟨"a", "", FilterEq, .int64 1⟩ :=
  ((clean_or_cases sampleLib [⟨"a", IntDataType 32, []⟩] .nil .nil).2 (by decide) "" "").trans
    (by decide)

/-- C8: cleaning `Not(X)` gives the constant true if `X` cleans to false, the
constant false if `X` cleans to true, and otherwise a new Not node that wraps
the cleaned `X`. -/
theorem clean_negate_cases (lib : GoLib) (specs : List CleanSpec) (X : Node) :
    clean lib (buildSpecs specs) (.negate X) =
      if clean lib (buildSpecs specs) X = .bool false then .bool true
      else if clean lib (buildSpecs specs) X = .bool true then .bool false
      else .negate (clean lib (buildSpecs specs) X) := by
  simp only [clean, cleanNegate_eq]

/-- C9: cleaning `Not(Not(X))` gives the constant true exactly when cleaning
`X` gives true, the constant false exactly when cleaning `X` gives false, and
when cleaning `X` gives a tree `T` it gives `Not(Not(T))`, which is `T` once
the pair of directly nested Not nodes is removed. -/
theorem clean_negate_negate (lib : GoLib) (specs : List CleanSpec) (X : Node) :
    (clean lib (buildSpecs specs) (.negate (.negate X)) = .bool true ↔
      clean lib (buildSpecs specs) X = .bool true) ∧
    (clean lib (buildSpecs specs) (.negate (.negate X)) = .bool false ↔
      clean lib (buildSpecs specs) X = .bool false) ∧
    ((∀ b, clean lib (buildSpecs specs) X ≠ .bool b) →
      clean lib (buildSpecs specs) (.negate (.negate X)) =
        .negate (.negate (clean lib (buildSpecs specs) X)) ∧
      stripDoubleNegate (clean lib (buildSpecs specs) (.negate (.negate X))) =
        clean lib (buildSpecs specs) X) := by
  simp only [clean, cleanNegate_eq]
  by_cases h1 : clean lib (buildSpecs specs) X = .bool false
  · simp [h1]
  · by_cases h2 : clean lib (buildSpecs specs) X = .bool true
    · simp [h2]
    · simp [h1, h2, stripDoubleNegate]

theorem clean_negate_negate_witness :
    clean sampleLib (buildSpecs [⟨"a", IntDataType 32, []⟩])
        (.negate (.negate (.parameter ⟨"a", "", FilterEq, .string "1"⟩))) =
      .negate (.negate (clean sampleLib (buildSpecs [⟨"a", IntDataType 32, []⟩])
        (.parameter ⟨"a", "", FilterEq, .string "1"⟩))) ∧
    stripDoubleNegate (clean sampleLib (buildSpecs [⟨"a", IntDataType 32, []⟩])
        (.negate (.negate (.parameter ⟨"a", "", FilterEq, .string "1"⟩)))) =
      clean sampleLib (buildSpecs [⟨"a", IntDataType 32, []⟩])
        (.parameter ⟨"a", "", FilterEq, .string "1"⟩) :=
  (clean_negate_negate sampleLib [⟨"a", IntDataType 32, []⟩]
    (.parameter ⟨"a", "", FilterEq, .string "1"⟩)).2.2 (by decide)

/-! ## The order list (C10) -/

theorem foldl_append_if {α : Type} (p : α → Bool) (xs acc : List α) :
    xs.foldl (fun newOrders x => if p x then newOrders ++ [x] else newOrders) acc =
      acc ++ xs.filter p := by
  induction xs generalizing acc with
  | nil => simp
  | cons x xs ih =>
    simp only [List.foldl_cons, ih, List.filter_cons]
    by_cases h : p x = true
    · simp [h]
    · simp [h]

/-- C10: `CleanOrders` returns exactly the sub-list of the entries whose
order-by field name is the Name of some spec, in their original order; e.g.
the orders `[a, unknown, b]` with the whitelist `{a, b}` give `[a, b]`. -/
theorem cleanOrders_eq_filter (orders : List Order) (specs : List CleanSpec) :
    CleanOrders orders specs =
      orders.filter (fun order => decide (order.GetOrderBy ∈ whitelistNames specs)) ∧
    ∀ (da du db : Bool) (ta tb : DataType) (ra rb : List Rule),
      CleanOrders [⟨"a", da⟩, ⟨"unknown", du⟩, ⟨"b", db⟩] [⟨"a", ta, ra⟩, ⟨"b", tb, rb⟩] =
        [⟨"a", da⟩, ⟨"b", db⟩] := by
  have key : ∀ (os : List Order) (ss : List CleanSpec), CleanOrders os ss =
      os.filter (fun order => decide (order.GetOrderBy ∈ whitelistNames ss)) := by
    intro os ss
    unfold CleanOrders
    simp only [buildNames_getBool]
    rw [foldl_append_if]
    simp
  refine ⟨key orders specs, ?_⟩
  intro da du db ta tb ra rb
  rw [key]
  simp [whitelistNames, Order.GetOrderBy, List.filter_cons]

/-! ## The comparison leaf (C2) -/

theorem validateRules_iff (rules : List Rule) (v : Value) :
    validateRules rules v = true ↔ ∀ rule ∈ rules, rule.Validate v = true := by
  induction rules with
  | nil => simp [validateRules]
  | cons rule rules ih =>
    simp only [validateRules, List.mem_cons, forall_eq_or_imp]
    cases h : rule.Validate v <;> simp [ih]

theorem cleanParameter_eq_leafSpec (lib : GoLib) (specs : List CleanSpec) (pm : Parameter) :
    cleanParameter lib (buildSpecs specs) pm = cleanLeafSpec lib specs pm := by
  unfold cleanParameter cleanLeafSpec
  rw [buildSpecs_apply]
  cases lookupSpec specs pm.Name with
  | none => rfl
  | some spec =>
    simp only []
    cases ha : spec.DataType.IsFilterAllowed pm.Filter
    · simp
    · rcases hp : spec.DataType.Parse lib pm.Value with ⟨v, ok⟩
      cases ok
      · simp
      · cases hr : validateRules spec.Rules v
        · have : ¬ ∀ rule ∈ spec.Rules, rule.Validate v = true := by
            rw [← validateRules_iff, hr]
            simp
          simp [this]
        · have : ∀ rule ∈ spec.Rules, rule.Validate v = true := by
            rw [← validateRules_iff, hr]
          simp only [ha, hr, Bool.not_true, Bool.false_eq_true, if_false, true_and]
          rw [if_pos this]

/-- C2: cleaning a Comparison leaf follows the leaf rule of the specification:
it yields a new Comparison node exactly when the name is in the whitelist, the
DataType of its whitelist entry allows the operator, `Parse` of the raw value
succeeds and every Rule accepts the parsed value; the new node then has the
same name and operator and carries the parsed value; in every other case the
result is the constant false. -/
theorem clean_parameter_spec (lib : GoLib) (specs : List CleanSpec) (pm : Parameter) :
    clean lib (buildSpecs specs) (.parameter pm) = cleanLeafSpec lib specs pm ∧
    ((∃ pm', clean lib (buildSpecs specs) (.parameter pm) = .parameter pm') ↔
      pm.Name ∈ whitelistNames specs ∧
      ∃ spec, lookupSpec specs pm.Name = some spec ∧
        spec.DataType.IsFilterAllowed pm.Filter = true ∧
        (spec.DataType.Parse lib pm.Value).2 = true ∧
        ∀ rule ∈ spec.Rules, rule.Validate (spec.DataType.Parse lib pm.Value).1 = true) ∧
    (∀ spec, lookupSpec specs pm.Name = some spec →
      spec.DataType.IsFilterAllowed pm.Filter = true →
      (spec.DataType.Parse lib pm.Value).2 = true →
      (∀ rule ∈ spec.Rules, rule.Validate (spec.DataType.Parse lib pm.Value).1 = true) →
      clean lib (buildSpecs specs) (.parameter pm) =
        .parameter ⟨pm.Name, pm.Alias, pm.Filter, (spec.DataType.Parse lib pm.Value).1⟩) ∧
    ((¬ ∃ pm', clean lib (buildSpecs specs) (.parameter pm) = .parameter pm') →
      clean lib (buildSpecs specs) (.parameter pm) = .bool false) := by
  have heq : clean lib (buildSpecs specs) (.parameter pm) = cleanLeafSpec lib specs pm := by
    simp only [clean, cleanParameter_eq_leafSpec]
  rw [heq]
  refine ⟨rfl, ?_, ?_, ?_⟩
  · unfold cleanLeafSpec
    cases hl : lookupSpec specs pm.Name with
    | none => simp
    | some spec =>
      have hmem : pm.Name ∈ whitelistNames specs := by
        by_contra hn
        rw [lookupSpec_eq_none.mpr hn] at hl
        cases hl
      simp only [Option.some.injEq, exists_eq_left', hmem, true_and]
      split_ifs with h
      · exact ⟨fun _ => h, fun _ => ⟨_, rfl⟩⟩
      · simp only [reduceCtorEq, exists_false, false_iff]
        exact h
  · intro spec hl ha hp hr
    unfold cleanLeafSpec
    rw [hl]
    simp only []
    rw [if_pos ⟨ha, hp, hr⟩]
  · intro h
    unfold cleanLeafSpec at h ⊢
    cases hl : lookupSpec specs pm.Name with
    | none => rfl
    | some spec =>
      rw [hl] at h
      simp only [] at h ⊢
      split_ifs with hc
      · rw [if_pos hc] at h
        exact absurd ⟨_, rfl⟩ h
      · rfl

theorem clean_parameter_spec_witness :
    clean sampleLib (buildSpecs [⟨"a", IntDataType 32, []⟩])
        (.parameter ⟨"a", "", FilterEq, .string "42"⟩) =
      .parameter ⟨"a", "", FilterEq, .int64 42⟩ ∧
    clean sampleLib (buildSpecs [⟨"a", IntDataType 32, []⟩])
        (.parameter ⟨"a", "", FilterLike, .string "42"⟩) = .bool false :=
  ⟨((clean_parameter_spec sampleLib [⟨"a", IntDataType 32, []⟩]
      ⟨"a", "", FilterEq, .string "42"⟩).2.2.1 ⟨"a", IntDataType 32, []⟩
      rfl (by decide) (by decide) (by decide)).trans (by decide),
    (clean_parameter_spec sampleLib [⟨"a", IntDataType 32, []⟩]
      ⟨"a", "", FilterLike, .string "42"⟩).2.2.2
      (fun h => h.elim (fun pm' e =>
        Node.noConfusion
          ((show clean sampleLib (buildSpecs [⟨"a", IntDataType 32, []⟩])
              (.parameter ⟨"a", "", FilterLike, .string "42"⟩) = .bool false by decide).symm.trans
            e)))⟩

/-! ## Only whitelisted fields survive (C1) -/

theorem cleanLeafSpec_parameters (lib : GoLib) (specs : List CleanSpec) (pm : Parameter) :
    ∀ pm' ∈ (cleanLeafSpec lib specs pm).parameters, pm'.Name ∈ whitelistNames specs := by
  intro pm' hmem
  unfold cleanLeafSpec at hmem
  cases hl : lookupSpec specs pm.Name with
  | none =>
    rw [hl] at hmem
    simp [Node.parameters] at hmem
  | some spec =>
    rw [hl] at hmem
    simp only [] at hmem
    split_ifs at hmem with hc
    · simp only [Node.parameters, List.mem_singleton] at hmem
      subst hmem
      by_contra hn
      rw [lookupSpec_eq_none.mpr hn] at hl
      cases hl
    · simp [Node.parameters] at hmem

theorem clean_parameters_whitelisted (lib : GoLib) (specs : List CleanSpec) (X : Node) :
    ∀ pm ∈ (clean lib (buildSpecs specs) X).parameters, pm.Name ∈ whitelistNames specs := by
  induction X with
  | and L R ihL ihR =>
    simp only [clean, cleanAnd_eq]
    split_ifs
    · simp [Node.parameters]
    · exact ihR
    · exact ihL
    · intro pm hmem
      simp only [Node.parameters, List.mem_append] at hmem
      exact hmem.elim (ihL pm) (ihR pm)
  | or L R ihL ihR =>
    simp only [clean, cleanOr_eq]
    split_ifs
    · simp [Node.parameters]
    · exact ihR
    · exact ihL
    · intro pm hmem
      simp only [Node.parameters, List.mem_append] at hmem
      exact hmem.elim (ihL pm) (ihR pm)
  | negate N ih =>
    simp only [clean, cleanNegate_eq]
    split_ifs
    · simp [Node.parameters]
    · simp [Node.parameters]
    · intro pm hmem
      simp only [Node.parameters] at hmem
      exact ih pm hmem
  | parameter pm =>
    simp only [clean, cleanParameter_eq_leafSpec]
    exact cleanLeafSpec_parameters lib specs pm
  | bool b => simp [clean, Node.parameters]
  | nil => simp [clean, Node.parameters]
  | other r => simp [clean, Node.parameters]

/-- C1: every Comparison node that occurs anywhere in the result of
`CleanFilter` has a field name that is the Name of some spec of the list. -/
theorem cleanFilter_parameters_whitelisted (lib : GoLib) (filter : Node)
    (specs : List CleanSpec) :
    ∀ pm ∈ (CleanFilter lib filter specs).parameters, ∃ spec ∈ specs, spec.Name = pm.Name := by
  intro pm hmem
  rw [CleanFilter_eq] at hmem
  have hname : pm.Name ∈ whitelistNames specs := by
    split_ifs at hmem
    · simp [Node.parameters] at hmem
    · exact clean_parameters_whitelisted lib specs filter pm hmem
  unfold whitelistNames at hname
  obtain ⟨spec, hs, he⟩ := List.mem_map.mp hname
  exact ⟨spec, hs, he⟩

theorem cleanFilter_parameters_whitelisted_witness :
    (⟨"a", "", FilterEq, .int64 1⟩ : Parameter) ∈
        (CleanFilter sampleLib
          (.or (.parameter ⟨"unknown", "", FilterEq, .string "1"⟩)
            (.negate (.parameter ⟨"a", "", FilterEq, .string "1"⟩)))
          [⟨"a", IntDataType 32, []⟩, ⟨"b", StringDataType, []⟩]).parameters ∧
    ∃ spec ∈ [(⟨"a", IntDataType 32, []⟩ : CleanSpec), ⟨"b", StringDataType, []⟩],
      spec.Name = "a" :=
  ⟨by decide,
    cleanFilter_parameters_whitelisted sampleLib
      (.or (.parameter ⟨"unknown", "", FilterEq, .string "1"⟩)
        (.negate (.parameter ⟨"a", "", FilterEq, .string "1"⟩)))
      [⟨"a", IntDataType 32, []⟩, ⟨"b", StringDataType, []⟩]
      ⟨"a", "", FilterEq, .int64 1⟩ (by decide)⟩

/-! ## Rejected leaves and the nil result (C3) -/

theorem clean_isTree_of_allAccepted (lib : GoLib) (m : GoMap CleanSpec) (X : Node)
    (h : allAccepted lib m X = true) : (clean lib m X).isTree = true := by
  induction X with
  | and L R ihL ihR =>
    simp only [allAccepted, Bool.and_eq_true] at h
    have hL := ihL h.1
    have hR := ihR h.2
    simp only [clean, cleanAnd_eq]
    rw [if_neg (by
        rintro (e | e)
        · exact isTree_ne_bool hL _ e
        · exact isTree_ne_bool hR _ e),
      if_neg (isTree_ne_bool hL _), if_neg (isTree_ne_bool hR _)]
    simp [Node.isTree, hL, hR]
  | or L R ihL ihR =>
    simp only [allAccepted, Bool.and_eq_true] at h
    have hL := ihL h.1
    have hR := ihR h.2
    simp only [clean, cleanOr_eq]
    rw [if_neg (by
        rintro (e | e)
        · exact isTree_ne_bool hL _ e
        · exact isTree_ne_bool hR _ e),
      if_neg (isTree_ne_bool hL _), if_neg (isTree_ne_bool hR _)]
    simp [Node.isTree, hL, hR]
  | negate N ih =>
    simp only [allAccepted] at h
    have hN := ih h
    simp only [clean, cleanNegate_eq]
    rw [if_neg (isTree_ne_bool hN _), if_neg (isTree_ne_bool hN _)]
    simp [Node.isTree, hN]
  | parameter pm =>
    simp only [allAccepted, rejected, Bool.not_eq_true', eqBool_eq_decide,
      decide_eq_false_iff_not] at h
    simp only [clean]
    rcases cleanParameter_bool_or_tree lib m pm with e | ⟨v, e⟩
    · exact absurd e h
    · rw [e]
      rfl
  | bool b => simp [allAccepted] at h
  | nil => simp [allAccepted] at h
  | other r => simp [allAccepted] at h

theorem clean_ne_true_of_noRejectedUnderNegate (lib : GoLib) (m : GoMap CleanSpec) (X : Node)
    (h : noRejectedUnderNegate lib m X = true) : clean lib m X ≠ .bool true := by
  induction X with
  | and L R ihL ihR =>
    simp only [noRejectedUnderNegate, Bool.and_eq_true] at h
    have hL := ihL h.1
    have hR := ihR h.2
    simp only [clean, cleanAnd_eq]
    split_ifs <;> simp_all
  | or L R ihL ihR =>
    simp only [noRejectedUnderNegate, Bool.and_eq_true] at h
    have hL := ihL h.1
    have hR := ihR h.2
    simp only [clean, cleanOr_eq]
    split_ifs <;> simp_all
  | negate N _ =>
    simp only [noRejectedUnderNegate] at h
    have hN := clean_isTree_of_allAccepted lib m N h
    simp only [clean, cleanNegate_eq]
    rw [if_neg (isTree_ne_bool hN _), if_neg (isTree_ne_bool hN _)]
    simp
  | parameter pm =>
    simp only [clean]
    rcases cleanParameter_bool_or_tree lib m pm with e | ⟨v, e⟩ <;> simp [e]
  | bool b => simp [clean]
  | nil => simp [clean]
  | other r => simp [clean]

/-- C3, as stated, fails: with the whitelist `{a}`, the tree
`Not(Comparison("unknown",eq,"1"))` contains a rejected leaf (unknown field) and
`CleanFilter` returns nil for it. -/
theorem cleanFilter_negate_rejected_nil :
    (⟨"unknown", "", FilterEq, .string "1"⟩ : Parameter) ∈
        (Node.negate (.parameter ⟨"unknown", "", FilterEq, .string "1"⟩)).parameters ∧
    rejected sampleLib (buildSpecs [⟨"a", IntDataType 32, []⟩])
        ⟨"unknown", "", FilterEq, .string "1"⟩ = true ∧
    CleanFilter sampleLib (.negate (.parameter ⟨"unknown", "", FilterEq, .string "1"⟩))
        [⟨"a", IntDataType 32, []⟩] = .nil := by
  decide

/-- C3, amended: for every whitelist and every filter tree in which no
rejected Comparison leaf (and no value other than the four node shapes) lies
below a Not node, `CleanFilter` does not return nil, in particular when the
tree contains a rejected leaf. -/
theorem cleanFilter_ne_nil_of_noRejectedUnderNegate (lib : GoLib) (filter : Node)
    (specs : List CleanSpec)
    (h : noRejectedUnderNegate lib (buildSpecs specs) filter = true) :
    CleanFilter lib filter specs ≠ .nil := by
  rw [CleanFilter_eq, if_neg (clean_ne_true_of_noRejectedUnderNegate lib _ filter h)]
  exact clean_ne_nil _ _ _

theorem cleanFilter_ne_nil_of_noRejectedUnderNegate_witness :
    rejected sampleLib (buildSpecs [⟨"a", IntDataType 32, []⟩])
        ⟨"unknown", "", FilterEq, .string "1"⟩ = true ∧
    noRejectedUnderNegate sampleLib (buildSpecs [⟨"a", IntDataType 32, []⟩])
        (.or (.parameter ⟨"unknown", "", FilterEq, .string "1"⟩)
          (.negate (.parameter ⟨"a", "", FilterEq, .string "1"⟩))) = true ∧
    CleanFilter sampleLib
        (.or (.parameter ⟨"unknown", "", FilterEq, .string "1"⟩)
          (.negate (.parameter ⟨"a", "", FilterEq, .string "1"⟩)))
        [⟨"a", IntDataType 32, []⟩] ≠ .nil :=
  ⟨by decide, by decide,
    cleanFilter_ne_nil_of_noRejectedUnderNegate sampleLib
      (.or (.parameter ⟨"unknown", "", FilterEq, .string "1"⟩)
        (.negate (.parameter ⟨"a", "", FilterEq, .string "1"⟩)))
      [⟨"a", IntDataType 32, []⟩] (by decide)⟩

/-! ## Cleaning a cleaned filter (C4) -/

theorem boolParse_stable (v v' : Value) (h : boolParse v = (v', true)) :
    boolParse v' = (v', true) ∧ ∀ s, v' ≠ .string s := by
  cases v <;> simp only [boolParse] at h
  case string s =>
    split_ifs at h <;> simp only [Prod.mk.injEq] at h
    · obtain ⟨rfl, _⟩ := h
      simp [boolParse]
    · obtain ⟨rfl, _⟩ := h
      simp [boolParse]
    · simp at h
  case bool b =>
    simp only [Prod.mk.injEq] at h
    obtain ⟨rfl, _⟩ := h
    simp [boolParse]
  all_goals simp at h

theorem uintParse_stable (bits : Int) (v v' : Value) (h : uintParse bits v = (v', true)) :
    uintParse bits v' = (v', true) ∧ ∀ s, v' ≠ .string s := by
  cases v <;> simp only [uintParse] at h
  case string s =>
    split at h <;> simp only [Prod.mk.injEq] at h
    · obtain ⟨rfl, _⟩ := h
      simp [uintParse]
    · simp at h
  all_goals first
    | (simp at h; done)
    | (simp only [Prod.mk.injEq] at h
       obtain ⟨rfl, _⟩ := h
       simp [uintParse])

theorem intParse_stable (bits : Int) (v v' : Value) (h : intParse bits v = (v', true)) :
    intParse bits v' = (v', true) ∧ ∀ s, v' ≠ .string s := by
  cases v <;> simp only [intParse] at h
  case string s =>
    split at h <;> simp only [Prod.mk.injEq] at h
    · obtain ⟨rfl, _⟩ := h
      simp [intParse]
    · simp at h
  all_goals first
    | (simp at h; done)
    | (simp only [Prod.mk.injEq] at h
       obtain ⟨rfl, _⟩ := h
       simp [intParse])

theorem floatParse_stable (lib : GoLib) (bits : Int) (v v' : Value)
    (h : floatParse lib bits v = (v', true)) :
    floatParse lib bits v' = (v', true) ∧ ∀ s, v' ≠ .string s := by
  cases v <;> simp only [floatParse] at h
  case string s =>
    split at h <;> simp only [Prod.mk.injEq] at h
    · obtain ⟨rfl, _⟩ := h
      simp [floatParse]
    · simp at h
  all_goals first
    | (simp at h; done)
    | (simp only [Prod.mk.injEq] at h
       obtain ⟨rfl, _⟩ := h
       simp [floatParse])

theorem stringParse_stable (lib : GoLib) (v v' : Value) (h : stringParse lib v = (v', true)) :
    v' = v ∧ stringParse lib v' = (v', true) := by
  cases v <;> simp only [stringParse, Prod.mk.injEq] at h
  case string s =>
    obtain ⟨rfl, _⟩ := h
    simp [stringParse]
  all_goals simp at h

theorem parse_stable_of_timeFree (lib : GoLib) (dt : DataType) (ht : dt.timeFree = true) :
    ∀ v v', dt.Parse lib v = (v', true) →
      dt.Parse lib v' = (v', true) ∧ (v' = .string "nil" → v = .string "nil") := by
  induction dt with
  | bool =>
    intro v v' h
    have := boolParse_stable v v' h
    exact ⟨this.1, fun e => absurd e (this.2 _)⟩
  | uint bits =>
    intro v v' h
    have := uintParse_stable bits v v' h
    exact ⟨this.1, fun e => absurd e (this.2 _)⟩
  | int bits =>
    intro v v' h
    have := intParse_stable bits v v' h
    exact ⟨this.1, fun e => absurd e (this.2 _)⟩
  | float bits =>
    intro v v' h
    have := floatParse_stable lib bits v v' h
    exact ⟨this.1, fun e => absurd e (this.2 _)⟩
  | string =>
    intro v v' h
    have := stringParse_stable lib v v' h
    exact ⟨this.2, fun e => by rw [← this.1]; exact e⟩
  | time inFormat outFormat => simp [DataType.timeFree] at ht
  | nilable dataType ih =>
    intro v v' h
    simp only [DataType.timeFree] at ht
    simp only [DataType.Parse] at h ⊢
    by_cases hv : v = .string "nil" ∨ v = .nil
    · rw [if_pos hv] at h
      simp only [Prod.mk.injEq, and_true] at h
      subst h
      simp
    · rw [if_neg hv] at h
      have hi := ih ht v v' h
      by_cases hv' : v' = .string "nil" ∨ v' = .nil
      · rcases hv' with e | e
        · exact absurd (Or.inl (hi.2 e)) hv
        · subst e
          simp
      · rw [if_neg hv']
        exact ⟨hi.1, fun e => absurd (Or.inl e) hv'⟩
  | custom isFilterAllowed parse => simp [DataType.timeFree] at ht

theorem parseStable_of_timeFree (lib : GoLib) (dt : DataType) (ht : dt.timeFree = true) :
    dt.ParseStable lib :=
  fun v v' h => (parse_stable_of_timeFree lib dt ht v v' h).1

theorem cleanLeafSpec_fixed (lib : GoLib) (specs : List CleanSpec)
    (hs : ∀ spec ∈ specs, spec.DataType.ParseStable lib) (pm pm' : Parameter)
    (h : cleanLeafSpec lib specs pm = .parameter pm') :
    cleanLeafSpec lib specs pm' = .parameter pm' := by
  unfold cleanLeafSpec at h
  cases hl : lookupSpec specs pm.Name with
  | none =>
    rw [hl] at h
    cases h
  | some spec =>
    rw [hl] at h
    simp only [] at h
    split_ifs at h with hc
    simp only [Node.parameter.injEq] at h
    subst h
    have hst := hs spec (lookupSpec_some hl).1
    have hp : spec.DataType.Parse lib pm.Value =
        ((spec.DataType.Parse lib pm.Value).1, true) := Prod.ext rfl hc.2.1
    have hp' := hst _ _ hp
    unfold cleanLeafSpec
    simp only [hl, hp']
    rw [if_pos ⟨hc.1, trivial, hc.2.2⟩]

theorem clean_clean (lib : GoLib) (specs : List CleanSpec)
    (hs : ∀ spec ∈ specs, spec.DataType.ParseStable lib) (X : Node)
    (hX : clean lib (buildSpecs specs) X ≠ .bool true) :
    clean lib (buildSpecs specs) (clean lib (buildSpecs specs) X) =
      clean lib (buildSpecs specs) X := by
  induction X with
  | and L R ihL ihR =>
    simp only [clean, cleanAnd_eq] at hX ⊢
    split_ifs at hX ⊢ with h1 h2 h3
    · rfl
    · exact ihR hX
    · exact ihL hX
    · have hL := ihL h2
      have hR := ihR h3
      simp only [clean, cleanAnd_eq, hL, hR]
      rw [if_neg h1, if_neg h2, if_neg h3]
  | or L R ihL ihR =>
    simp only [clean, cleanOr_eq] at hX ⊢
    split_ifs at hX ⊢ with h1 h2 h3
    · exact absurd rfl hX
    · exact ihR hX
    · exact ihL hX
    · have hL := ihL (fun e => h1 (Or.inl e))
      have hR := ihR (fun e => h1 (Or.inr e))
      simp only [clean, cleanOr_eq, hL, hR]
      rw [if_neg h1, if_neg h2, if_neg h3]
  | negate N ih =>
    simp only [clean, cleanNegate_eq] at hX ⊢
    split_ifs at hX ⊢ with h1 h2
    · exact absurd rfl hX
    · rfl
    · have hN := ih h2
      simp only [clean, cleanNegate_eq, hN]
      rw [if_neg h1, if_neg h2]
  | parameter pm =>
    simp only [clean, cleanParameter_eq_leafSpec]
    rcases cleanParameter_bool_or_tree lib (buildSpecs specs) pm with e | ⟨v, e⟩
    · rw [cleanParameter_eq_leafSpec] at e
      rw [e]
      rfl
    · rw [cleanParameter_eq_leafSpec] at e
      rw [e]
      simp only [clean, cleanParameter_eq_leafSpec]
      exact cleanLeafSpec_fixed lib specs hs pm _ e
  | bool b => rfl
  | nil => rfl
  | other r => rfl

/-- A timestamp field without output format is not stable: the instant that
`Parse` returns for a string is itself rejected by `Parse`, so the cleaned
comparison is rejected when it is cleaned again. -/
theorem timeDataType_reclean_rejected (lib : GoLib) (inFormat s : String) (t : Time)
    (h : lib.timeParse inFormat s = some t) (name other : String) :
    CleanFilter lib (.parameter ⟨name, other, FilterEq, .string s⟩)
        [⟨name, TimeDataType inFormat "", []⟩] =
      .parameter ⟨name, other, FilterEq, .time t⟩ ∧
    CleanFilter lib (.parameter ⟨name, other, FilterEq, .time t⟩)
        [⟨name, TimeDataType inFormat "", []⟩] = .bool false := by
  have hl : lookupSpec [⟨name, TimeDataType inFormat "", []⟩] name =
      some ⟨name, TimeDataType inFormat "", []⟩ := by
    simp [lookupSpec]
  constructor
  · rw [CleanFilter_eq]
    simp only [clean, cleanParameter_eq_leafSpec, cleanLeafSpec, hl]
    simp [TimeDataType, DataType.Parse, timeParse, h, DataType.IsFilterAllowed,
      orderedIsFilterAllowed]
  · rw [CleanFilter_eq]
    simp only [clean, cleanParameter_eq_leafSpec, cleanLeafSpec, hl]
    simp [TimeDataType, DataType.Parse, timeParse]

/-- An instance of `timeDataType_reclean_rejected`: a field `t` of type
`TimeDataType(time.RFC3339, "")` and the raw value `1970-01-01T00:00:00Z`. -/
theorem timeDataType_reclean_rejected_epoch :
    CleanFilter sampleLib (.parameter ⟨"t", "", FilterEq, .string "1970-01-01T00:00:00Z"⟩)
        [⟨"t", TimeDataType RFC3339 "", []⟩] =
      .parameter ⟨"t", "", FilterEq, .time ⟨0, 0⟩⟩ ∧
    CleanFilter sampleLib (.parameter ⟨"t", "", FilterEq, .time ⟨0, 0⟩⟩)
        [⟨"t", TimeDataType RFC3339 "", []⟩] = .bool false :=
  timeDataType_reclean_rejected sampleLib RFC3339 "1970-01-01T00:00:00Z" ⟨0, 0⟩ rfl "t" ""

/-- C4, as stated, fails: with the whitelist `{a}`, `CleanFilter` returns nil
for `Not(Comparison("unknown",eq,"1"))`, and `CleanFilter` of nil is the boolean
false, which is not nil. -/
theorem cleanFilter_not_idempotent :
    CleanFilter sampleLib (.negate (.parameter ⟨"unknown", "", FilterEq, .string "1"⟩))
        [⟨"a", IntDataType 32, []⟩] = .nil ∧
    CleanFilter sampleLib
        (CleanFilter sampleLib (.negate (.parameter ⟨"unknown", "", FilterEq, .string "1"⟩))
          [⟨"a", IntDataType 32, []⟩])
        [⟨"a", IntDataType 32, []⟩] = .bool false ∧
    CleanFilter sampleLib
        (CleanFilter sampleLib (.negate (.parameter ⟨"unknown", "", FilterEq, .string "1"⟩))
          [⟨"a", IntDataType 32, []⟩])
        [⟨"a", IntDataType 32, []⟩] ≠
      CleanFilter sampleLib (.negate (.parameter ⟨"unknown", "", FilterEq, .string "1"⟩))
        [⟨"a", IntDataType 32, []⟩] := by
  decide

/-- C4, amended: for every whitelist whose data types re-parse each of their
own successful results to itself, and every filter tree for which `CleanFilter`
does not return nil, running `CleanFilter` again on the result with the same
whitelist returns that same result. -/
theorem cleanFilter_idempotent (lib : GoLib) (filter : Node) (specs : List CleanSpec)
    (hs : ∀ spec ∈ specs, spec.DataType.ParseStable lib)
    (hn : CleanFilter lib filter specs ≠ .nil) :
    CleanFilter lib (CleanFilter lib filter specs) specs = CleanFilter lib filter specs := by
  have hX : clean lib (buildSpecs specs) filter ≠ .bool true := by
    intro e
    apply hn
    rw [CleanFilter_eq, if_pos e]
  have h1 : CleanFilter lib filter specs = clean lib (buildSpecs specs) filter := by
    rw [CleanFilter_eq, if_neg hX]
  rw [h1, CleanFilter_eq, clean_clean lib specs hs filter hX, if_neg hX]

theorem cleanFilter_idempotent_witness :
    CleanFilter sampleLib
        (CleanFilter sampleLib
          (.and (.parameter ⟨"a", "", FilterEq, .string "42"⟩)
            (.negate (.parameter ⟨"b", "", FilterLike, .string "nil"⟩)))
          [⟨"a", IntDataType 32, []⟩, ⟨"b", NilableDataType StringDataType, []⟩])
        [⟨"a", IntDataType 32, []⟩, ⟨"b", NilableDataType StringDataType, []⟩] =
      CleanFilter sampleLib
        (.and (.parameter ⟨"a", "", FilterEq, .string "42"⟩)
          (.negate (.parameter ⟨"b", "", FilterLike, .string "nil"⟩)))
        [⟨"a", IntDataType 32, []⟩, ⟨"b", NilableDataType StringDataType, []⟩] ∧
    CleanFilter sampleLib
        (.and (.parameter ⟨"a", "", FilterEq, .string "42"⟩)
          (.negate (.parameter ⟨"b", "", FilterLike, .string "nil"⟩)))
        [⟨"a", IntDataType 32, []⟩, ⟨"b", NilableDataType StringDataType, []⟩] =
      .and (.parameter ⟨"a", "", FilterEq, .int64 42⟩)
        (.negate (.parameter ⟨"b", "", FilterLike, .nil⟩)) :=
  ⟨cleanFilter_idempotent sampleLib
      (.and (.parameter ⟨"a", "", FilterEq, .string "42"⟩)
        (.negate (.parameter ⟨"b", "", FilterLike, .string "nil"⟩)))
      [⟨"a", IntDataType 32, []⟩, ⟨"b", NilableDataType StringDataType, []⟩]
      (fun spec hmem => by
        simp only [List.mem_cons, List.mem_singleton, List.not_mem_nil, or_false] at hmem
        rcases hmem with rfl | rfl
        · exact parseStable_of_timeFree _ _ rfl
        · exact parseStable_of_timeFree _ _ rfl)
      (by decide),
    by decide⟩

/-! ## The operator table (C11) -/

theorem orderedIsFilterAllowed_iff (filter : Filter) :
    orderedIsFilterAllowed filter = true ↔
      filter.Identification = FilterEq.Identification ∨
      filter.Identification = FilterGt.Identification ∨
      filter.Identification = FilterGte.Identification ∨
      filter.Identification = FilterLt.Identification ∨
      filter.Identification = FilterLte.Identification ∨
      filter.Identification = FilterIn.Identification := by
  simp [orderedIsFilterAllowed, or_assoc]

/-- C11: `IsFilterAllowed` follows the operator table, for every operator:
Bool allows exactly equals and in-set; Int, Uint, Float and Timestamp allow
exactly equals, greater-than, greater-or-equal, less-than, less-or-equal and
in-set; String allows exactly equals, like, case-insensitive-like and in-set,
so it rejects greater-than; Optional(T) allows an operator exactly when T
does. -/
theorem isFilterAllowed_table (filter : Filter) :
    (BoolDataType.IsFilterAllowed filter = true ↔
      filter.Identification = FilterEq.Identification ∨
      filter.Identification = FilterIn.Identification) ∧
    (∀ dt : DataType,
      ((∃ bits, dt = IntDataType bits) ∨ (∃ bits, dt = UintDataType bits) ∨
        (∃ bits, dt = FloatDataType bits) ∨
        (∃ inFormat outFormat, dt = TimeDataType inFormat outFormat)) →
      (dt.IsFilterAllowed filter = true ↔
        filter.Identification = FilterEq.Identification ∨
        filter.Identification = FilterGt.Identification ∨
        filter.Identification = FilterGte.Identification ∨
        filter.Identification = FilterLt.Identification ∨
        filter.Identification = FilterLte.Identification ∨
        filter.Identification = FilterIn.Identification)) ∧
    (StringDataType.IsFilterAllowed filter = true ↔
      filter.Identification = FilterEq.Identification ∨
      filter.Identification = FilterLike.Identification ∨
      filter.Identification = FilterILike.Identification ∨
      filter.Identification = FilterIn.Identification) ∧
    StringDataType.IsFilterAllowed FilterGt = false ∧
    (∀ T : DataType, (NilableDataType T).IsFilterAllowed filter = T.IsFilterAllowed filter) := by
  refine ⟨?_, ?_, ?_, ?_, ?_⟩
  · simp [BoolDataType, DataType.IsFilterAllowed]
  · rintro dt (⟨bits, rfl⟩ | ⟨bits, rfl⟩ | ⟨bits, rfl⟩ | ⟨inFormat, outFormat, rfl⟩) <;>
      simp only [IntDataType, UintDataType, FloatDataType, TimeDataType,
        DataType.IsFilterAllowed, orderedIsFilterAllowed_iff]
  · simp [StringDataType, DataType.IsFilterAllowed, or_assoc]
  · decide
  · intro T
    simp [NilableDataType, DataType.IsFilterAllowed]

theorem isFilterAllowed_table_witness :
    (IntDataType 32).IsFilterAllowed FilterGte = true ∧
    (TimeDataType RFC3339 "").IsFilterAllowed FilterLike = false :=
  ⟨((isFilterAllowed_table FilterGte).2.1 (IntDataType 32) (Or.inl ⟨32, rfl⟩)).mpr (by decide),
    Bool.eq_false_iff.mpr (fun h =>
      absurd (((isFilterAllowed_table FilterLike).2.1 (TimeDataType RFC3339 "")
        (Or.inr (Or.inr (Or.inr ⟨RFC3339, "", rfl⟩)))).mp h) (by decide))⟩

/-! ## The optional wrapper (C12) -/

/-- C12, as stated, fails: the string "null" is no sentinel of
`nilableDataType.Parse`; `Optional(String).Parse("null")` is the inner result
`("null", true)` and `Optional(Int(32)).Parse("null")` fails. -/
theorem nilable_parse_null_not_absent :
    (NilableDataType StringDataType).Parse sampleLib (.string "null") =
      (.string "null", true) ∧
    (NilableDataType StringDataType).Parse sampleLib (.string "null") ≠ (.nil, true) ∧
    (NilableDataType (IntDataType 32)).Parse sampleLib (.string "null") = (.nil, false) := by
  decide

/-- C12, amended: for every inner type T, `Optional(T).Parse` returns
(absent, success) when the input is the string "nil" or an actual absent
value, whatever T is; for every other input, the string "null" included, it
returns exactly `T.Parse(input)`. In particular
`Optional(String).Parse("nil") = (nil, true)`. -/
theorem nilable_parse_cases (lib : GoLib) (T : DataType) :
    (NilableDataType T).Parse lib (.string "nil") = (.nil, true) ∧
    (NilableDataType T).Parse lib .nil = (.nil, true) ∧
    (∀ value, value ≠ .string "nil" → value ≠ .nil →
      (NilableDataType T).Parse lib value = T.Parse lib value) ∧
    (NilableDataType T).Parse lib (.string "null") = T.Parse lib (.string "null") ∧
    (NilableDataType StringDataType).Parse lib (.string "nil") = (.nil, true) := by
  refine ⟨?_, ?_, ?_, ?_, ?_⟩
  · simp [NilableDataType, DataType.Parse]
  · simp [NilableDataType, DataType.Parse]
  · intro value h1 h2
    simp [NilableDataType, DataType.Parse, h1, h2]
  · simp [NilableDataType, DataType.Parse]
  · simp [NilableDataType, DataType.Parse]

theorem nilable_parse_cases_witness :
    (NilableDataType (IntDataType 32)).Parse sampleLib (.string "7") = (.int64 7, true) :=
  ((nilable_parse_cases sampleLib (IntDataType 32)).2.2.1 (.string "7")
    (by decide) (by decide)).trans (by decide)

/-! ## Booleans (C13) -/

theorem not_mem_trueStrings_of_mem_falseStrings {s : String} (h : s ∈ falseStrings) :
    s ∉ trueStrings := by
  simp only [falseStrings, List.mem_cons, List.mem_singleton, List.not_mem_nil, or_false] at h
  rcases h with rfl | rfl | rfl <;> decide

/-- C13: `Bool.Parse` succeeds exactly when the input is a boolean, returned
unchanged, or a string whose lower-cased form is one of "true", "yes", "y"
(result true) or "false", "no", "n" (result false); every other input fails.
E.g. `Parse("YES") = (true, true)` and `Parse("maybe")` fails. -/
theorem bool_parse_spec (lib : GoLib) (value : Value) :
    ((BoolDataType.Parse lib value).2 = true ↔
      (∃ b, value = .bool b) ∨
      ∃ s, value = .string s ∧
        (stringsToLower s ∈ trueStrings ∨ stringsToLower s ∈ falseStrings)) ∧
    (∀ b, BoolDataType.Parse lib (.bool b) = (.bool b, true)) ∧
    (∀ s, stringsToLower s ∈ trueStrings →
      BoolDataType.Parse lib (.string s) = (.bool true, true)) ∧
    (∀ s, stringsToLower s ∈ falseStrings →
      BoolDataType.Parse lib (.string s) = (.bool false, true)) ∧
    ((BoolDataType.Parse lib value).2 = false → BoolDataType.Parse lib value = (.nil, false)) ∧
    BoolDataType.Parse lib (.string "YES") = (.bool true, true) ∧
    (BoolDataType.Parse lib (.string "maybe")).2 = false := by
  have htrue : ∀ s, stringsToLower s ∈ trueStrings →
      boolParse (.string s) = (.bool true, true) := by
    intro s h
    simp [boolParse, h]
  have hfalse : ∀ s, stringsToLower s ∈ falseStrings →
      boolParse (.string s) = (.bool false, true) := by
    intro s h
    simp [boolParse, h, not_mem_trueStrings_of_mem_falseStrings h]
  simp only [BoolDataType, DataType.Parse]
  refine ⟨?_, fun b => rfl, htrue, hfalse, ?_, by decide, by decide⟩
  · cases value <;> simp [boolParse]
    rename_i s
    by_cases h1 : stringsToLower s ∈ trueStrings
    · simp [h1]
    · by_cases h2 : stringsToLower s ∈ falseStrings
      · simp [h1, h2]
      · simp [h1, h2]
  · cases value <;> simp [boolParse]
    rename_i s
    by_cases h1 : stringsToLower s ∈ trueStrings
    · simp [h1]
    · by_cases h2 : stringsToLower s ∈ falseStrings
      · simp [h1, h2]
      · simp [h1, h2]

theorem bool_parse_spec_witness :
    BoolDataType.Parse sampleLib (.string "No") = (.bool false, true) ∧
    BoolDataType.Parse sampleLib (.int64 1) = (.nil, false) :=
  ⟨(bool_parse_spec sampleLib .nil).2.2.2.1 "No" (by decide),
    (bool_parse_spec sampleLib (.int64 1)).2.2.2.2.1 (by decide)⟩

/-! ## Values that are no node (C15) and the shape of the result (C18) -/

theorem clean_of_not_isNode (lib : GoLib) (m : GoMap CleanSpec) (X : Node)
    (h : X.isNode = false) : clean lib m X = .bool false := by
  cases X <;> simp [Node.isNode] at h <;> rfl

/-- C15: cleaning a filter value that is not an And, Or, Not or Comparison
node (the nil filter included) gives the constant false; `CleanFilter` returns
false for it, and an And that has it as a child cleans to false. -/
theorem clean_unrecognized_false (lib : GoLib) (specs : List CleanSpec) (X : Node)
    (h : X.isNode = false) :
    clean lib (buildSpecs specs) X = .bool false ∧
    CleanFilter lib X specs = .bool false ∧
    (∀ Y, clean lib (buildSpecs specs) (.and X Y) = .bool false ∧
      clean lib (buildSpecs specs) (.and Y X) = .bool false) ∧
    clean lib (buildSpecs specs) .nil = .bool false ∧
    CleanFilter lib .nil specs = .bool false := by
  have hX := clean_of_not_isNode lib (buildSpecs specs) X h
  refine ⟨hX, ?_, ?_, rfl, ?_⟩
  · rw [CleanFilter_eq, hX]
    simp
  · intro Y
    simp only [clean, cleanAnd_eq, hX]
    simp
  · rw [CleanFilter_eq]
    simp [clean]

theorem clean_unrecognized_false_witness :
    Node.isNode (.other "[]int") = false ∧
    CleanFilter sampleLib (.other "[]int") [⟨"a", IntDataType 32, []⟩] = .bool false ∧
    clean sampleLib (buildSpecs [⟨"a", IntDataType 32, []⟩])
        (.and (.parameter ⟨"a", "", FilterEq, .string "1"⟩) (.other "[]int")) = .bool false :=
  ⟨rfl,
    (clean_unrecognized_false sampleLib [⟨"a", IntDataType 32, []⟩] (.other "[]int") rfl).2.1,
    ((clean_unrecognized_false sampleLib [⟨"a", IntDataType 32, []⟩] (.other "[]int")
      rfl).2.2.1 (.parameter ⟨"a", "", FilterEq, .string "1"⟩)).2⟩

/-- C18: the recursive `clean` returns the constant true, the constant false,
or a tree built only from And, Or, Not and Comparison nodes, in which no
boolean constant (nor any other value) occurs as a child at any depth. -/
theorem clean_result_shape (lib : GoLib) (specs : List CleanSpec) (X : Node) :
    clean lib (buildSpecs specs) X = .bool true ∨
    clean lib (buildSpecs specs) X = .bool false ∨
    (clean lib (buildSpecs specs) X).isTree = true := by
  rcases clean_bool_or_tree lib (buildSpecs specs) X with ⟨b, hb⟩ | h
  · cases b
    · exact Or.inr (Or.inl hb)
    · exact Or.inl hb
  · exact Or.inr (Or.inr h)

/-! ## Cleaning preserves the boolean meaning (C19) -/

theorem evalCleaned_cleanAnd (ρ : Parameter → Bool) (left right : Node) :
    evalCleaned ρ (cleanAnd left right) = (evalCleaned ρ left && evalCleaned ρ right) := by
  rw [cleanAnd_eq]
  split_ifs with h1 h2 h3
  · rcases h1 with e | e <;> simp [e, evalCleaned]
  · simp [h2, evalCleaned]
  · simp [h3, evalCleaned]
  · simp [evalCleaned]

theorem evalCleaned_cleanOr (ρ : Parameter → Bool) (left right : Node) :
    evalCleaned ρ (cleanOr left right) = (evalCleaned ρ left || evalCleaned ρ right) := by
  rw [cleanOr_eq]
  split_ifs with h1 h2 h3
  · rcases h1 with e | e <;> simp [e, evalCleaned]
  · simp [h2, evalCleaned]
  · simp [h3, evalCleaned]
  · simp [evalCleaned]

theorem evalCleaned_cleanNegate (ρ : Parameter → Bool) (negated : Node) :
    evalCleaned ρ (cleanNegate negated) = !evalCleaned ρ negated := by
  rw [cleanNegate_eq]
  split_ifs with h1 h2
  · simp [h1, evalCleaned]
  · simp [h2, evalCleaned]
  · simp [evalCleaned]

/-- C19: for every whitelist, every filter and every assignment of truth values
to cleaned Comparison nodes, the result of `clean` evaluates (the constants
standing for themselves) to the truth value of the input read with every
rejected leaf as false and every accepted leaf as the truth value of its
cleaned node. -/
theorem clean_preserves_meaning (lib : GoLib) (specs : List CleanSpec)
    (ρ : Parameter → Bool) (X : Node) :
    evalCleaned ρ (clean lib (buildSpecs specs) X) = evalInput lib (buildSpecs specs) ρ X := by
  induction X with
  | and L R ihL ihR => simp only [clean, evalInput, evalCleaned_cleanAnd, ihL, ihR]
  | or L R ihL ihR => simp only [clean, evalInput, evalCleaned_cleanOr, ihL, ihR]
  | negate N ih => simp only [clean, evalInput, evalCleaned_cleanNegate, ih]
  | parameter pm =>
    simp only [clean, evalInput]
    rcases cleanParameter_bool_or_tree lib (buildSpecs specs) pm with e | ⟨v, e⟩
    · rw [e]
      rfl
    · rw [e]
      rfl
  | bool b => rfl
  | nil => rfl
  | other r => rfl

/-! ## Where the cleaned leaves come from (C20) -/

theorem CleanedFrom.mono {lib : GoLib} {specs : List CleanSpec} {X Y : Node} {pm' : Parameter}
    (hsub : ∀ pm ∈ X.parameters, pm ∈ Y.parameters) (h : CleanedFrom lib specs X pm') :
    CleanedFrom lib specs Y pm' := by
  obtain ⟨spec, hl, ha, ⟨pm, hmem, hrest⟩, hr⟩ := h
  exact ⟨spec, hl, ha, ⟨pm, hsub pm hmem, hrest⟩, hr⟩

theorem cleanLeafSpec_cleanedFrom (lib : GoLib) (specs : List CleanSpec) (pm : Parameter) :
    ∀ pm' ∈ (cleanLeafSpec lib specs pm).parameters,
      CleanedFrom lib specs (.parameter pm) pm' := by
  intro pm' hmem
  unfold cleanLeafSpec at hmem
  cases hl : lookupSpec specs pm.Name with
  | none =>
    rw [hl] at hmem
    simp [Node.parameters] at hmem
  | some spec =>
    rw [hl] at hmem
    simp only [] at hmem
    split_ifs at hmem with hc
    · simp only [Node.parameters, List.mem_singleton] at hmem
      subst hmem
      refine ⟨spec, hl, hc.1, ⟨pm, ?_, rfl, rfl, ?_⟩, hc.2.2⟩
      · simp [Node.parameters]
      · exact Prod.ext rfl hc.2.1
    · simp [Node.parameters] at hmem

theorem clean_cleanedFrom (lib : GoLib) (specs : List CleanSpec) (X : Node) :
    ∀ pm' ∈ (clean lib (buildSpecs specs) X).parameters, CleanedFrom lib specs X pm' := by
  induction X with
  | and L R ihL ihR =>
    have subL : ∀ pm ∈ L.parameters, pm ∈ (Node.and L R).parameters := fun pm h => by
      simp only [Node.parameters, List.mem_append]
      exact Or.inl h
    have subR : ∀ pm ∈ R.parameters, pm ∈ (Node.and L R).parameters := fun pm h => by
      simp only [Node.parameters, List.mem_append]
      exact Or.inr h
    simp only [clean, cleanAnd_eq]
    split_ifs
    · simp [Node.parameters]
    · exact fun pm' h => (ihR pm' h).mono subR
    · exact fun pm' h => (ihL pm' h).mono subL
    · intro pm' hmem
      simp only [Node.parameters, List.mem_append] at hmem
      exact hmem.elim (fun h => (ihL pm' h).mono subL) (fun h => (ihR pm' h).mono subR)
  | or L R ihL ihR =>
    have subL : ∀ pm ∈ L.parameters, pm ∈ (Node.or L R).parameters := fun pm h => by
      simp only [Node.parameters, List.mem_append]
      exact Or.inl h
    have subR : ∀ pm ∈ R.parameters, pm ∈ (Node.or L R).parameters := fun pm h => by
      simp only [Node.parameters, List.mem_append]
      exact Or.inr h
    simp only [clean, cleanOr_eq]
    split_ifs
    · simp [Node.parameters]
    · exact fun pm' h => (ihR pm' h).mono subR
    · exact fun pm' h => (ihL pm' h).mono subL
    · intro pm' hmem
      simp only [Node.parameters, List.mem_append] at hmem
      exact hmem.elim (fun h => (ihL pm' h).mono subL) (fun h => (ihR pm' h).mono subR)
  | negate N ih =>
    have subN : ∀ pm ∈ N.parameters, pm ∈ (Node.negate N).parameters := fun pm h => by
      simpa only [Node.parameters] using h
    simp only [clean, cleanNegate_eq]
    split_ifs
    · simp [Node.parameters]
    · simp [Node.parameters]
    · intro pm' hmem
      simp only [Node.parameters] at hmem
      exact (ih pm' hmem).mono subN
  | parameter pm =>
    simp only [clean, cleanParameter_eq_leafSpec]
    exact cleanLeafSpec_cleanedFrom lib specs pm
  | bool b => simp [clean, Node.parameters]
  | nil => simp [clean, Node.parameters]
  | other r => simp [clean, Node.parameters]

/-- C20: every Comparison node in the result of `CleanFilter` has an operator
that the data type of its field's spec allows, and a value that is the
successful `Parse` result, under that data type, of the raw value of a
Comparison leaf of the input with the same name and operator; every Rule of
the spec accepts that value. -/
theorem cleanFilter_parameters_cleaned (lib : GoLib) (filter : Node) (specs : List CleanSpec) :
    ∀ pm' ∈ (CleanFilter lib filter specs).parameters,
      ∃ spec, lookupSpec specs pm'.Name = some spec ∧
        spec.DataType.IsFilterAllowed pm'.Filter = true ∧
        (∃ pm ∈ filter.parameters, pm.Name = pm'.Name ∧ pm.Filter = pm'.Filter ∧
          spec.DataType.Parse lib pm.Value = (pm'.Value, true)) ∧
        ∀ rule ∈ spec.Rules, rule.Validate pm'.Value = true := by
  intro pm' hmem
  rw [CleanFilter_eq] at hmem
  split_ifs at hmem
  · simp [Node.parameters] at hmem
  · exact clean_cleanedFrom lib specs filter pm' hmem

theorem cleanFilter_parameters_cleaned_witness :
    (⟨"a", "", FilterGt, .int64 5⟩ : Parameter) ∈
        (CleanFilter sampleLib
          (.and (.parameter ⟨"a", "", FilterGt, .string "5"⟩)
            (.or (.parameter ⟨"a", "", FilterLike, .string "6"⟩)
              (.parameter ⟨"b", "", FilterEq, .string "x"⟩)))
          [⟨"a", IntDataType 32, []⟩, ⟨"b", StringDataType, []⟩]).parameters ∧
    ∃ spec, lookupSpec [⟨"a", IntDataType 32, []⟩, ⟨"b", StringDataType, []⟩] "a" = some spec ∧
      spec.DataType.IsFilterAllowed FilterGt = true ∧
      (∃ pm ∈ (Node.and (.parameter ⟨"a", "", FilterGt, .string "5"⟩)
            (.or (.parameter ⟨"a", "", FilterLike, .string "6"⟩)
              (.parameter ⟨"b", "", FilterEq, .string "x"⟩))).parameters,
        pm.Name = "a" ∧ pm.Filter = FilterGt ∧
          spec.DataType.Parse sampleLib pm.Value = (.int64 5, true)) ∧
      ∀ rule ∈ spec.Rules, rule.Validate (.int64 5) = true :=
  ⟨by decide,
    cleanFilter_parameters_cleaned sampleLib
      (.and (.parameter ⟨"a", "", FilterGt, .string "5"⟩)
        (.or (.parameter ⟨"a", "", FilterLike, .string "6"⟩)
          (.parameter ⟨"b", "", FilterEq, .string "x"⟩)))
      [⟨"a", IntDataType 32, []⟩, ⟨"b", StringDataType, []⟩]
      ⟨"a", "", FilterGt, .int64 5⟩ (by decide)⟩

/-! ## The schema walk (C16, C17) -/

theorem timeStruct_cases (pkgPath tname : String) :
    ((¬ pkgPath = "time" ∨ ¬ tname = "Time") ∧
      (decide (pkgPath = "time") && decide (tname = "Time")) = false) ∨
    (¬ (¬ pkgPath = "time" ∨ ¬ tname = "Time") ∧
      (decide (pkgPath = "time") && decide (tname = "Time")) = true) := by
  by_cases h1 : pkgPath = "time" <;> by_cases h2 : tname = "Time" <;> simp [h1, h2]

theorem getDataType_isSome (field : StructField) :
    (getDataType field).isSome = recognizedKind (stripPointer field.Typ) := by
  rcases field with ⟨name, tag, typ⟩
  cases typ with
  | named kind pkgPath tname =>
    cases kind
    case Struct =>
      simp only [getDataType, recognizedKind, stripPointer, RType.Kind, RType.Elem,
        RType.PkgPath, RType.Name]
      rcases timeStruct_cases pkgPath tname with ⟨hc, hd⟩ | ⟨hc, hd⟩
      · simp [if_pos hc, hd]
      · simp [if_neg hc, hd]
    all_goals
      simp [getDataType, recognizedKind, stripPointer, RType.Kind, RType.Elem, RType.PkgPath,
        RType.Name]
  | ptr elem =>
    cases elem with
    | named kind pkgPath tname =>
      cases kind
      case Struct =>
        simp only [getDataType, recognizedKind, stripPointer, RType.Kind, RType.Elem,
          RType.PkgPath, RType.Name]
        rcases timeStruct_cases pkgPath tname with ⟨hc, hd⟩ | ⟨hc, hd⟩
        · simp [if_pos hc, hd]
        · simp [if_neg hc, hd]
      all_goals
        simp [getDataType, recognizedKind, stripPointer, RType.Kind, RType.Elem, RType.PkgPath,
          RType.Name]
    | ptr inner =>
      simp [getDataType, recognizedKind, stripPointer, RType.Kind, RType.Elem, RType.PkgPath,
        RType.Name]

theorem getDataType_shape (field : StructField) (dt : DataType)
    (h : getDataType field = some dt) :
    (field.Typ.Kind = Kind.Ptr → ∃ T, dt = NilableDataType T ∧ T.isBase = true) ∧
    (field.Typ.Kind ≠ Kind.Ptr → dt.isBase = true) := by
  rcases field with ⟨name, tag, typ⟩
  cases typ with
  | named kind pkgPath tname =>
    cases kind
    case Struct =>
      simp only [getDataType, RType.Kind, RType.Elem, RType.PkgPath, RType.Name] at h
      rcases timeStruct_cases pkgPath tname with ⟨hc, _⟩ | ⟨hc, _⟩
      · simp [if_pos hc] at h
      · simp [if_neg hc] at h
        subst h
        simp [RType.Kind, TimeDataType, DataType.isBase]
    all_goals
      simp [getDataType, RType.Kind, RType.Elem, RType.PkgPath, RType.Name, RType.Bits,
        BoolDataType, IntDataType, UintDataType, FloatDataType, StringDataType,
        NilableDataType] at h ⊢
    all_goals
      subst h
      rfl
  | ptr elem =>
    cases elem with
    | named kind pkgPath tname =>
      cases kind
      case Struct =>
        simp only [getDataType, RType.Kind, RType.Elem, RType.PkgPath, RType.Name] at h
        rcases timeStruct_cases pkgPath tname with ⟨hc, _⟩ | ⟨hc, _⟩
        · simp [if_pos hc] at h
        · simp [if_neg hc] at h
          subst h
          simp [RType.Kind, TimeDataType, NilableDataType, DataType.isBase]
      all_goals
        simp [getDataType, RType.Kind, RType.Elem, RType.PkgPath, RType.Name, RType.Bits,
          BoolDataType, IntDataType, UintDataType, FloatDataType, StringDataType,
          NilableDataType] at h ⊢
      all_goals
        subst h
        simp [DataType.isBase]
    | ptr inner =>
      simp [getDataType, RType.Kind, RType.Elem] at h

theorem appendCleanSpec_of_eligible (specs : List CleanSpec) (field : StructField)
    (hn : field.Name ≠ "") (he : eligible field = true) :
    effectiveName field ≠ "" ∧
    ∃ dt, getDataType field = some dt ∧
      appendCleanSpec specs field = specs ++ [⟨effectiveName field, dt, []⟩] := by
  simp only [eligible, decide_eq_true_eq, Bool.decide_and, Bool.and_eq_true,
    Bool.decide_eq_true] at he
  obtain ⟨htag, hrec⟩ := he
  have hname : getName field = effectiveName field := by
    simp only [getName, getFieldTagValue, effectiveName, if_neg htag]
    by_cases h0 : field.Tag.Get "filterparams" = ""
    · simp [h0]
    · simp [h0]
  have hne : effectiveName field ≠ "" := by
    unfold effectiveName
    by_cases h0 : field.Tag.Get "filterparams" = ""
    · simpa [h0] using hn
    · simp [h0]
  refine ⟨hne, ?_⟩
  have hsome : (getDataType field).isSome = true := by
    rw [getDataType_isSome]
    exact hrec
  obtain ⟨dt, hdt⟩ := Option.isSome_iff_exists.mp hsome
  refine ⟨dt, hdt, ?_⟩
  simp only [appendCleanSpec, hname, if_neg hne, hdt]

theorem appendCleanSpec_of_not_eligible (specs : List CleanSpec) (field : StructField)
    (he : eligible field = false) : appendCleanSpec specs field = specs := by
  unfold appendCleanSpec
  by_cases hname : getName field = ""
  · simp [hname]
  · simp only [if_neg hname]
    have htag : ¬ field.Tag.Get "filterparams" = "-" := by
      intro h
      apply hname
      simp [getName, getFieldTagValue, h]
    have hrec : recognizedKind (stripPointer field.Typ) = false := by
      simp only [eligible, Bool.decide_and, Bool.and_eq_false_iff, decide_eq_false_iff_not,
        Bool.decide_eq_true] at he
      rcases he with h | h
      · exact absurd htag h
      · simpa using h
    have hnone : getDataType field = none := by
      rw [← Option.not_isSome_iff_eq_none, getDataType_isSome, hrec]
      simp
    simp [hnone]

theorem foldl_appendCleanSpec (fields : List StructField) (acc : List CleanSpec)
    (hn : ∀ field ∈ fields, field.Name ≠ "") :
    ∃ new, fields.foldl appendCleanSpec acc = acc ++ new ∧
      new.map (fun spec => spec.Name) = (fields.filter eligible).map effectiveName ∧
      ∀ spec ∈ new, spec.Rules = [] ∧ spec.Name ≠ "" := by
  induction fields generalizing acc with
  | nil => exact ⟨[], by simp, by simp, by simp⟩
  | cons field fields ih =>
    have hn' : ∀ f ∈ fields, f.Name ≠ "" := fun f hf => hn f (List.mem_cons_of_mem _ hf)
    simp only [List.foldl_cons]
    cases he : eligible field with
    | false =>
      rw [appendCleanSpec_of_not_eligible acc field he]
      obtain ⟨new, h1, h2, h3⟩ := ih acc hn'
      exact ⟨new, h1, by simp [List.filter_cons, he, h2], h3⟩
    | true =>
      obtain ⟨hne, dt, _, happ⟩ :=
        appendCleanSpec_of_eligible acc field (hn field (List.mem_cons_self _ _)) he
      rw [happ]
      obtain ⟨new, h1, h2, h3⟩ := ih (acc ++ [⟨effectiveName field, dt, []⟩]) hn'
      refine ⟨⟨effectiveName field, dt, []⟩ :: new, ?_, ?_, ?_⟩
      · rw [h1]
        simp
      · simp [List.filter_cons, he, h2]
      · intro spec hmem
        rcases List.mem_cons.mp hmem with rfl | hmem
        · exact ⟨rfl, hne⟩
        · exact h3 spec hmem

theorem foldl_appendCleanSpec_dataType (fields : List StructField) (acc : List CleanSpec) :
    ∀ spec ∈ fields.foldl appendCleanSpec acc,
      spec ∈ acc ∨ ∃ field ∈ fields, getDataType field = some spec.DataType := by
  induction fields generalizing acc with
  | nil =>
    intro spec hmem
    exact Or.inl hmem
  | cons field fields ih =>
    intro spec hmem
    simp only [List.foldl_cons] at hmem
    rcases ih _ spec hmem with h | ⟨f, hf, hdt⟩
    · simp only [appendCleanSpec] at h
      split_ifs at h
      · exact Or.inl h
      · cases hdt : getDataType field with
        | none =>
          rw [hdt] at h
          exact Or.inl h
        | some dt =>
          rw [hdt] at h
          simp only [List.mem_append, List.mem_singleton] at h
          rcases h with h | rfl
          · exact Or.inl h
          · exact Or.inr ⟨field, List.mem_cons_self _ _, hdt⟩
    · exact Or.inr ⟨f, List.mem_cons_of_mem _ hf, hdt⟩

/-- C16: for a record with the given fields (each with a non-empty
identifier), `GetCleanSpecs` returns, in field order, exactly one CleanSpec for
each field whose tag is not "-" and whose kind, after the removal of at most
one pointer level, is bool, a signed or unsigned integer (`int`..`int64`,
`uint`..`uint64`), a float, string or `time.Time`; every other field produces
nothing. The Name of each spec is the tag when the tag is not empty and the
field identifier otherwise, it is never empty, and the Rules are empty. -/
theorem getCleanSpecs_spec (fields : List StructField)
    (hn : ∀ field ∈ fields, field.Name ≠ "") :
    ∃ specs, GetCleanSpecs (.struct fields) = some specs ∧
      specs.map (fun spec => spec.Name) = (fields.filter eligible).map effectiveName ∧
      specs.length = (fields.filter eligible).length ∧
      ∀ spec ∈ specs, spec.Rules = [] ∧ spec.Name ≠ "" := by
  obtain ⟨new, h1, h2, h3⟩ := foldl_appendCleanSpec fields [] hn
  refine ⟨new, ?_, h2, ?_, h3⟩
  · simp only [GetCleanSpecs, h1, List.nil_append]
  · have := congrArg List.length h2
    simpa using this

theorem getCleanSpecs_spec_witness :
    (∀ field ∈ sampleFields, field.Name ≠ "") ∧
    ∃ specs, GetCleanSpecs (.struct sampleFields) = some specs ∧
      specs.map (fun spec => spec.Name) = ["id", "Name", "created"] ∧
      specs.length = 3 ∧
      ∀ spec ∈ specs, spec.Rules = [] ∧ spec.Name ≠ "" :=
  ⟨by decide,
    (getCleanSpecs_spec sampleFields (by decide)).imp fun _ h =>
      ⟨h.1, h.2.1.trans (by decide), h.2.2.1.trans (by decide), h.2.2.2⟩⟩

/-- C17: no CleanSpec returned by `GetCleanSpecs` for a record has a DataType
of the form Optional(Optional(T)): a pointer field yields Optional(T) with T
a base type that is not optional, a field that is no pointer yields such a
base type, and a pointer-to-pointer field yields no spec at all. -/
theorem getCleanSpecs_no_nested_nilable (fields : List StructField) :
    (∃ specs, GetCleanSpecs (.struct fields) = some specs ∧
      ∀ spec ∈ specs,
        (∀ T, spec.DataType ≠ NilableDataType (NilableDataType T)) ∧
        (spec.DataType.isBase = true ∨
          ∃ T, spec.DataType = NilableDataType T ∧ T.isBase = true)) ∧
    (∀ field dt, getDataType field = some dt →
      (field.Typ.Kind = Kind.Ptr → ∃ T, dt = NilableDataType T ∧ T.isBase = true) ∧
      (field.Typ.Kind ≠ Kind.Ptr → dt.isBase = true)) ∧
    (∀ name tag elem specs,
      getDataType ⟨name, tag, .ptr (.ptr elem)⟩ = none ∧
      appendCleanSpec specs ⟨name, tag, .ptr (.ptr elem)⟩ = specs) := by
  refine ⟨⟨fields.foldl appendCleanSpec [], rfl, ?_⟩, getDataType_shape, ?_⟩
  · intro spec hmem
    rcases foldl_appendCleanSpec_dataType fields [] spec hmem with h | ⟨f, _, hdt⟩
    · simp at h
    · have hs := getDataType_shape f spec.DataType hdt
      by_cases hk : f.Typ.Kind = Kind.Ptr
      · obtain ⟨T, hT, hb⟩ := hs.1 hk
        refine ⟨?_, Or.inr ⟨T, hT, hb⟩⟩
        intro T' e
        rw [hT] at e
        simp only [NilableDataType, DataType.nilable.injEq] at e
        subst e
        simp [DataType.isBase] at hb
      · have hb := hs.2 hk
        refine ⟨?_, Or.inl hb⟩
        intro T' e
        rw [e] at hb
        simp [NilableDataType, DataType.isBase] at hb
  · intro name tag elem specs
    have hnone : getDataType ⟨name, tag, .ptr (.ptr elem)⟩ = none := by
      simp [getDataType, RType.Kind, RType.Elem]
    refine ⟨hnone, ?_⟩
    unfold appendCleanSpec
    simp [hnone]

theorem getCleanSpecs_no_nested_nilable_witness :
    getDataType ⟨"Created", filterparamsTag "created", .ptr (.named .Struct "time" "Time")⟩ =
        some (NilableDataType (TimeDataType RFC3339 "")) ∧
    ∃ T, NilableDataType (TimeDataType RFC3339 "") = NilableDataType T ∧ T.isBase = true :=
  ⟨rfl,
    ((getCleanSpecs_no_nested_nilable []).2.1
      ⟨"Created", filterparamsTag "created", .ptr (.named .Struct "time" "Time")⟩
      (NilableDataType (TimeDataType RFC3339 "")) rfl).1 rfl⟩

/-! ## Signed integers (C14) -/

theorem digitVal_eq (c : Char) :
    digitVal c = if c.isDigit = true then some (c.toNat - '0'.toNat) else none := by
  unfold digitVal Char.isDigit
  simp only [Char.le_def, ge_iff_le, Bool.and_eq_true, decide_eq_true_eq]
  rfl

theorem le_foldl_digits (cs : List Char) (n : Nat) :
    n ≤ cs.foldl (fun n c => 10 * n + (c.toNat - '0'.toNat)) n := by
  induction cs generalizing n with
  | nil => simp
  | cons c cs ih =>
    simp only [List.foldl_cons]
    exact le_trans (by omega) (ih _)

theorem parseUintLoop_ok (maxVal : Nat) (hmax : maxVal ≤ 2 ^ 64 - 1) (cs : List Char) (n : Nat)
    (hd : cs.all Char.isDigit = true)
    (hv : cs.foldl (fun n c => 10 * n + (c.toNat - '0'.toNat)) n ≤ maxVal) :
    parseUintLoop maxVal cs n =
      .ok (cs.foldl (fun n c => 10 * n + (c.toNat - '0'.toNat)) n) := by
  induction cs generalizing n with
  | nil => rfl
  | cons c cs ih =>
    simp only [List.all_cons, Bool.and_eq_true] at hd
    simp only [List.foldl_cons] at hv ⊢
    have hle := le_foldl_digits cs (10 * n + (c.toNat - '0'.toNat))
    have h1 : ¬ n ≥ (2 ^ 64 - 1) / 10 + 1 := by omega
    have h2 : ¬ n * 10 + (c.toNat - '0'.toNat) > maxVal := by omega
    have e : n * 10 + (c.toNat - '0'.toNat) = 10 * n + (c.toNat - '0'.toNat) := by omega
    simp only [parseUintLoop, digitVal_eq, hd.1, if_true, if_neg h1, if_neg h2]
    rw [e]
    exact ih _ hd.2 hv

theorem parseUintLoop_not_ok (maxVal : Nat) (cs : List Char) (n : Nat) (hn : n ≤ maxVal)
    (h : cs.all Char.isDigit = false ∨
      maxVal < cs.foldl (fun n c => 10 * n + (c.toNat - '0'.toNat)) n) :
    parseUintLoop maxVal cs n = .fail ∨ parseUintLoop maxVal cs n = .range maxVal := by
  induction cs generalizing n with
  | nil =>
    rcases h with h | h
    · simp at h
    · simp only [List.foldl_nil] at h
      omega
  | cons c cs ih =>
    cases hc : c.isDigit with
    | false =>
      left
      simp [parseUintLoop, digitVal_eq, hc]
    | true =>
      simp only [parseUintLoop, digitVal_eq, hc, if_true]
      split_ifs with h1 h2
      · exact Or.inr rfl
      · exact Or.inr rfl
      · have e : n * 10 + (c.toNat - '0'.toNat) = 10 * n + (c.toNat - '0'.toNat) := by omega
        apply ih
        · omega
        · rcases h with h | h
          · left
            simpa [hc] using h
          · right
            simp only [List.foldl_cons] at h
            rw [e]
            exact h

theorem strconvParseUint_ok (w : Nat) (hw : w ∈ [8, 16, 32, 64]) (cs : List Char)
    (hd : isDecimal cs = true) (hv : decimalValue cs ≤ 2 ^ w - 1) :
    strconvParseUint (String.mk cs) w = .ok (decimalValue cs) := by
  simp only [isDecimal, Bool.and_eq_true, Bool.not_eq_true', List.isEmpty_eq_false_iff_exists_mem] at hd
  have hne : cs ≠ [] := by
    obtain ⟨⟨x, hx⟩, _⟩ := hd
    exact List.ne_nil_of_mem hx
  have hmax : 2 ^ w - 1 ≤ 2 ^ 64 - 1 := by
    simp only [List.mem_cons, List.mem_singleton, List.not_mem_nil, or_false] at hw
    rcases hw with rfl | rfl | rfl | rfl <;> norm_num
  have := parseUintLoop_ok (2 ^ w - 1) hmax cs 0 hd.2 hv
  simp only [List.mem_cons, List.mem_singleton, List.not_mem_nil, or_false] at hw
  rcases hw with rfl | rfl | rfl | rfl <;>
    simp [strconvParseUint, hne, decimalValue] at this ⊢ <;> exact this

theorem strconvParseUint_not_ok (w : Nat) (hw : w ∈ [8, 16, 32, 64]) (cs : List Char)
    (h : isDecimal cs = false ∨ 2 ^ w - 1 < decimalValue cs) :
    strconvParseUint (String.mk cs) w = .fail ∨
      strconvParseUint (String.mk cs) w = .range (2 ^ w - 1) := by
  by_cases hne : cs = []
  · subst hne
    left
    simp [strconvParseUint]
  · have h' : cs.all Char.isDigit = false ∨
        2 ^ w - 1 < cs.foldl (fun n c => 10 * n + (c.toNat - '0'.toNat)) 0 := by
      rcases h with h | h
      · left
        simp only [isDecimal, Bool.and_eq_false_iff, Bool.not_eq_false', List.isEmpty_iff] at h
        rcases h with h | h
        · exact absurd h hne
        · exact h
      · exact Or.inr h
    have := parseUintLoop_not_ok (2 ^ w - 1) cs 0 (Nat.zero_le _) h'
    simp only [List.mem_cons, List.mem_singleton, List.not_mem_nil, or_false] at hw
    rcases hw with rfl | rfl | rfl | rfl <;>
      simp [strconvParseUint, hne] at this ⊢ <;> exact this

theorem parseIntRange_eq (w : Nat) (hw : w ∈ [8, 16, 32, 64]) (neg : Bool) (un : Nat) :
    parseIntRange neg un w =
      if -(2 : Int) ^ (w - 1) ≤ (if neg then -(un : Int) else (un : Int)) ∧
          (if neg then -(un : Int) else (un : Int)) ≤ (2 : Int) ^ (w - 1) - 1 then
        some (if neg then -(un : Int) else (un : Int))
      else none := by
  simp only [List.mem_cons, List.mem_singleton, List.not_mem_nil, or_false] at hw
  rcases hw with rfl | rfl | rfl | rfl <;> cases neg <;>
    simp [parseIntRange] <;> split_ifs <;> first | rfl | omega

theorem parseInt_core (w : Nat) (hw : w ∈ [8, 16, 32, 64]) (neg : Bool) (rest : List Char) :
    (match strconvParseUint (String.mk rest) w with
      | .fail => none
      | .ok un => parseIntRange neg un w
      | .range un => parseIntRange neg un w) =
      if isDecimal rest = true then
        (if -(2 : Int) ^ (w - 1) ≤
              (if neg then -(decimalValue rest : Int) else (decimalValue rest : Int)) ∧
            (if neg then -(decimalValue rest : Int) else (decimalValue rest : Int)) ≤
              (2 : Int) ^ (w - 1) - 1 then
          some (if neg then -(decimalValue rest : Int) else (decimalValue rest : Int))
        else none)
      else none := by
  by_cases hd : isDecimal rest = true
  · by_cases hv : decimalValue rest ≤ 2 ^ w - 1
    · rw [strconvParseUint_ok w hw rest hd hv, if_pos hd]
      exact parseIntRange_eq w hw neg _
    · have hv' : 2 ^ w - 1 < decimalValue rest := by omega
      have hout : ¬ (-(2 : Int) ^ (w - 1) ≤
            (if neg then -(decimalValue rest : Int) else (decimalValue rest : Int)) ∧
          (if neg then -(decimalValue rest : Int) else (decimalValue rest : Int)) ≤
            (2 : Int) ^ (w - 1) - 1) := by
        simp only [List.mem_cons, List.mem_singleton, List.not_mem_nil, or_false] at hw
        rcases hw with rfl | rfl | rfl | rfl <;> cases neg <;> simp at hv' ⊢ <;> omega
      rw [if_pos hd, if_neg hout]
      rcases strconvParseUint_not_ok w hw rest (Or.inr hv') with e | e
      · rw [e]
      · rw [e]
        simp only [parseIntRange_eq w hw]
        simp only [List.mem_cons, List.mem_singleton, List.not_mem_nil, or_false] at hw
        rcases hw with rfl | rfl | rfl | rfl <;> cases neg <;> simp
  · rw [if_neg hd]
    have hd' : isDecimal rest = false := by simpa using hd
    rcases strconvParseUint_not_ok w hw rest (Or.inl hd') with e | e
    · rw [e]
    · rw [e]
      simp only [parseIntRange_eq w hw]
      simp only [List.mem_cons, List.mem_singleton, List.not_mem_nil, or_false] at hw
      rcases hw with rfl | rfl | rfl | rfl <;> cases neg <;> simp

theorem strconvParseInt_eq (w : Nat) (hw : w ∈ [8, 16, 32, 64]) (s : String) :
    strconvParseInt s w =
      match intLiteral s with
      | some n =>
        if -(2 : Int) ^ (w - 1) ≤ n ∧ n ≤ (2 : Int) ^ (w - 1) - 1 then some n else none
      | none => none := by
  rcases s with ⟨data⟩
  cases data with
  | nil => simp [strconvParseInt, intLiteral]
  | cons c cs =>
    simp only [strconvParseInt, intLiteral]
    by_cases hp : c = '+'
    · subst hp
      have := parseInt_core w hw false cs
      simp only [Bool.false_eq_true, if_false] at this
      simp only [true_or, if_true, show ('+' = '-') = False by decide, decide_False]
      rw [this]
      by_cases hd : isDecimal cs = true <;> simp [hd]
    · by_cases hm : c = '-'
      · subst hm
        have := parseInt_core w hw true cs
        simp only [if_true] at this
        simp only [or_true, if_true, decide_True, if_neg hp]
        rw [this]
        by_cases hd : isDecimal cs = true <;> simp [hd]
      · have := parseInt_core w hw false (c :: cs)
        simp only [Bool.false_eq_true, if_false] at this
        simp only [hp, hm, or_self, if_false, decide_False]
        rw [this]
        by_cases hd : isDecimal (c :: cs) = true <;> simp [hd]

/-- C14: for every bit width w in {8, 16, 32, 64} and every string s,
`Int(w).Parse(s)` succeeds exactly when s is a base-10 integer literal (an
optional sign followed by one or more decimal digits) whose value lies in
`[-2^(w-1), 2^(w-1)-1]`, and then returns that value as an `int64`; it fails
on every other string. An input that is already a signed integer of any width
is returned as an `int64` of the same value. E.g. `Int(32).Parse("42") =
(42, true)` and `Int(32).Parse("abc")` fails. -/
theorem int_parse_spec (lib : GoLib) (w : Nat) (hw : w ∈ [8, 16, 32, 64]) :
    (∀ s, (IntDataType w).Parse lib (.string s) = intParseSpec w s) ∧
    (∀ s, ((IntDataType w).Parse lib (.string s)).2 = true ↔
      ∃ n, intLiteral s = some n ∧ -(2 : Int) ^ (w - 1) ≤ n ∧ n ≤ (2 : Int) ^ (w - 1) - 1) ∧
    (∀ s n, intLiteral s = some n → -(2 : Int) ^ (w - 1) ≤ n → n ≤ (2 : Int) ^ (w - 1) - 1 →
      (IntDataType w).Parse lib (.string s) = (.int64 n, true)) ∧
    (∀ v, (IntDataType w).Parse lib (.int v) = (.int64 v, true) ∧
      (IntDataType w).Parse lib (.int8 v) = (.int64 v, true) ∧
      (IntDataType w).Parse lib (.int16 v) = (.int64 v, true) ∧
      (IntDataType w).Parse lib (.int32 v) = (.int64 v, true) ∧
      (IntDataType w).Parse lib (.int64 v) = (.int64 v, true)) ∧
    (IntDataType 32).Parse lib (.string "42") = (.int64 42, true) ∧
    ((IntDataType 32).Parse lib (.string "abc")).2 = false := by
  have key : ∀ s, (IntDataType w).Parse lib (.string s) = intParseSpec w s := by
    intro s
    simp only [IntDataType, DataType.Parse, intParse, intParseSpec, strconvParseInt_eq w hw s]
    cases intLiteral s with
    | none => rfl
    | some n =>
      simp only []
      split_ifs <;> rfl
  have h42 : intParse 32 (.string "42") = (.int64 42, true) := by decide
  have habc : (intParse 32 (.string "abc")).2 = false := by decide
  refine ⟨key, ?_, ?_, ?_, h42, habc⟩
  · intro s
    rw [key, intParseSpec]
    cases intLiteral s with
    | none => simp
    | some n =>
      simp only []
      split_ifs with h
      · simp [h]
      · simp only [Bool.false_eq_true, Option.some.injEq, exists_eq_left', false_iff]
        exact h
  · intro s n hl h1 h2
    rw [key, intParseSpec, hl]
    simp only []
    rw [if_pos ⟨h1, h2⟩]
  · intro v
    simp [IntDataType, DataType.Parse, intParse]

theorem int_parse_spec_witness :
    (IntDataType (8 : Nat)).Parse sampleLib (.string "-128") = (.int64 (-128), true) ∧
    (IntDataType (8 : Nat)).Parse sampleLib (.string "128") = (.nil, false) :=
  ⟨(int_parse_spec sampleLib 8 (by decide)).2.2.1 "-128" (-128) (by decide) (by decide)
      (by decide),
    ((int_parse_spec sampleLib 8 (by decide)).1 "128").trans (by decide)⟩

end Fputil
